import Mathlib

/-!
Verification of the LeetCode time-tracker extension: the per-title time
accounting engine (background.js) and the persistent record store
(storage-manager). JavaScript object maps are modelled as association
lists in insertion order, JS numbers as `Int` (timestamps, counters) or
`Rat` (JSON numbers), and JS truthiness tests are translated explicitly
at each use site.
-/

namespace LC

/-- Association-list lookup, modelling JS `m[k]` (`none` = `undefined`). -/
def alookup {α : Type} (k : String) : List (String × α) → Option α
  | [] => none
  | (k', v) :: r => if k' = k then some v else alookup k r

/-- Association-list write, modelling JS `m[k] = v`: overwrites in place,
appends for a fresh key (insertion order preserved, as JS objects do). -/
def aset {α : Type} (k : String) (v : α) : List (String × α) → List (String × α)
  | [] => [(k, v)]
  | (k', v') :: r => if k' = k then (k, v) :: r else (k', v') :: aset k v r

/-- Association-list delete, modelling JS `delete m[k]`. -/
def aerase {α : Type} (k : String) : List (String × α) → List (String × α)
  | [] => []
  | (k', v') :: r => if k' = k then r else (k', v') :: aerase k r

/-! ## Per-title timer (background.js) -/

/-- Source `titleTimers[title]` entry: `{ accumulated, runningSince, activeCount }`.
`runningSince = none` models JS `null`. -/
structure TimerState where
  accumulated : Int
  runningSince : Option Int
  activeCount : Int
deriving DecidableEq

/-- JS truthiness of the `runningSince` field (a `number | null`):
`null` and `0` are falsy, every other number is truthy. -/
def tsTruthy : Option Int → Bool
  | none => false
  | some t => t != 0

/-- Fresh timer created by `ensureTitleTimer`:
`{ accumulated: 0, runningSince: null, activeCount: 0 }`. -/
def initTimer : TimerState := ⟨0, none, 0⟩

/-- Source `startTitleIfNeeded`, the part acting on one timer record:
if `activeCount === 0 && !runningSince` set `runningSince = now`,
then `activeCount++`. -/
def startTimer (now : Int) (t : TimerState) : TimerState :=
  let t1 := if t.activeCount = 0 ∧ tsTruthy t.runningSince = false then
      { t with runningSince := some now } else t
  { t1 with activeCount := t1.activeCount + 1 }

/-- Source `stopTitleIfNeeded`, the part acting on one timer record:
`if (activeCount > 0) activeCount--`; then if `activeCount <= 0`,
bank `now - runningSince` when `runningSince` is truthy, clear it,
and floor `activeCount` at `0`. -/
def stopTimer (now : Int) (t : TimerState) : TimerState :=
  let t1 := if 0 < t.activeCount then { t with activeCount := t.activeCount - 1 } else t
  if t1.activeCount ≤ 0 then
    let t2 := if tsTruthy t1.runningSince then
        { t1 with accumulated := t1.accumulated + (now - t1.runningSince.getD 0),
                  runningSince := none }
      else t1
    { t2 with activeCount := 0 }
  else t1

/-- Body of the `pauseAllTitles` loop on one timer record: bank the
running delta when `runningSince` is truthy and zero `activeCount`. -/
def pauseTimer (now : Int) (t : TimerState) : TimerState :=
  let t1 := if tsTruthy t.runningSince then
      { t with accumulated := t.accumulated + (now - t.runningSince.getD 0),
               runningSince := none }
    else t
  { t1 with activeCount := 0 }

/-- Start/stop events on a single title. -/
inductive TimerEv where
  | start : TimerEv
  | stop : TimerEv
deriving DecidableEq

/-- One timestamped start/stop call on one title. -/
def stepTimer (t : TimerState) : Int × TimerEv → TimerState
  | (n, .start) => startTimer n t
  | (n, .stop) => stopTimer n t

/-- A whole sequence of timestamped start/stop calls. -/
def runTimer (t : TimerState) (es : List (Int × TimerEv)) : TimerState :=
  es.foldl stepTimer t

/-- Wall-clock validity of an event sequence: timestamps are monotonically
non-decreasing starting from `p` (with `0 < p` this also makes every
`Date.now()` value positive, as real wall clocks are). -/
def validSeq (p : Int) : List (Int × TimerEv) → Prop
  | [] => True
  | (n, _) :: r => p ≤ n ∧ validSeq n r

instance instDecValidSeq (p : Int) (es : List (Int × TimerEv)) : Decidable (validSeq p es) :=
  match es with
  | [] => isTrue trivial
  | (n, _) :: r =>
    have : Decidable (validSeq n r) := instDecValidSeq n r
    inferInstanceAs (Decidable (_ ∧ _))

/-- Sum of the wall-clock durations of the inter-event intervals during
which `activeCount > 0`, for events starting at reference time `p`. -/
def activeTime (t : TimerState) (p : Int) : List (Int × TimerEv) → Int
  | [] => 0
  | (n, e) :: r =>
    (if 0 < t.activeCount then n - p else 0) + activeTime (stepTimer t (n, e)) n r

/-- Timestamp of the last event (or `p` for the empty sequence). -/
def finT (p : Int) : List (Int × TimerEv) → Int
  | [] => p
  | (n, _) :: r => finT n r

/-- Well-formedness of a timer at reference time `p`: the running flag
matches the reference count, any stored start time is a positive past
wall-clock instant, and both counters are non-negative. -/
def TWF (t : TimerState) (p : Int) : Prop :=
  (0 < t.activeCount ↔ t.runningSince.isSome) ∧
  (∀ T, t.runningSince = some T → 0 < T ∧ T ≤ p) ∧
  0 ≤ t.activeCount ∧ 0 ≤ t.accumulated

/-- Banked time plus the currently running (not yet banked) segment,
evaluated at time `q`. -/
def phi (t : TimerState) (q : Int) : Int :=
  t.accumulated + (match t.runningSince with | some T => q - T | none => 0)

/-! ## Engine state and operations (background.js) -/

/-- The background coordinator's global state: `tabToTitle` (keys are
`String(tabId)`), `titleTimers`, and `currentActiveTabId`. -/
structure EngineState where
  tabToTitle : List (String × String)
  titleTimers : List (String × TimerState)
  currentActiveTabId : Option Int
deriving DecidableEq

/-- Engine state after `loadState` on an empty store. -/
def initEngine : EngineState := ⟨[], [], none⟩

/-- Source `ensureTitleTimer(title)`: create the entry when absent. -/
def ensureTitleTimer (title : String) (m : List (String × TimerState)) :
    List (String × TimerState) :=
  match alookup title m with
  | some _ => m
  | none => aset title initTimer m

/-- Source `startTitleIfNeeded(title)` acting on the `titleTimers` map. -/
def startTitleIfNeeded (now : Int) (title : String) (m : List (String × TimerState)) :
    List (String × TimerState) :=
  let m1 := ensureTitleTimer title m
  match alookup title m1 with
  | some t => aset title (startTimer now t) m1
  | none => m1

/-- Source `stopTitleIfNeeded(title)` acting on the `titleTimers` map
(early return when no timer exists). -/
def stopTitleIfNeeded (now : Int) (title : String) (m : List (String × TimerState)) :
    List (String × TimerState) :=
  match alookup title m with
  | none => m
  | some t => aset title (stopTimer now t) m

/-- Source `pauseAllTitles()` acting on the `titleTimers` map. -/
def pauseAllTitles (now : Int) (m : List (String × TimerState)) :
    List (String × TimerState) :=
  m.map (fun kv => (kv.1, pauseTimer now kv.2))

/-- JS `String(x)` on a `number | null` value. -/
def jsStrOfTab : Option Int → String
  | none => "null"
  | some n => toString n

/-- JS truthiness of a string: the empty string is falsy. -/
def strTruthy (s : String) : Bool := s != ""

/-- Source `handleTabChange(newTabId)`: no-op when the tab is already active;
otherwise stop the previous active tab's title (when known and truthy),
record the new active tab, and start its title when known and truthy. -/
def handleTabChange (now : Int) (newTabId : Option Int) (s : EngineState) : EngineState :=
  if s.currentActiveTabId = newTabId then s
  else
    let timers1 :=
      match s.currentActiveTabId with
      | none => s.titleTimers
      | some prev =>
        match alookup (toString prev) s.tabToTitle with
        | some prevTitle =>
          if strTruthy prevTitle then stopTitleIfNeeded now prevTitle s.titleTimers
          else s.titleTimers
        | none => s.titleTimers
    let s1 : EngineState := { s with titleTimers := timers1, currentActiveTabId := newTabId }
    match newTabId with
    | none => s1
    | some nid =>
      match alookup (toString nid) s1.tabToTitle with
      | some title =>
        if strTruthy title then
          { s1 with titleTimers := startTitleIfNeeded now title s1.titleTimers }
        else s1
      | none => s1

/-- Source `handleTabRemoved(tabId)`: drop the tab's mapping; when the removed
tab was active (`String(currentActiveTabId) === id`), stop its title and
clear the active pointer. -/
def handleTabRemoved (now : Int) (tabId : Int) (s : EngineState) : EngineState :=
  let id := toString tabId
  let title := alookup id s.tabToTitle
  let tt := aerase id s.tabToTitle
  if jsStrOfTab s.currentActiveTabId = id then
    let timers1 :=
      match title with
      | some t => if strTruthy t then stopTitleIfNeeded now t s.titleTimers else s.titleTimers
      | none => s.titleTimers
    { tabToTitle := tt, titleTimers := timers1, currentActiveTabId := none }
  else
    { s with tabToTitle := tt }

/-- The guard `currentActiveTabId && String(currentActiveTabId) === tabId`
of the message listener (`0` and `null` are falsy). -/
def activeTabMatches (cur : Option Int) (tid : String) : Bool :=
  match cur with
  | some c => (c != 0) && (toString c == tid)
  | none => false

/-- The `reportTitle` branch of the message listener: `msg.title || null`
coerces an empty title to `null`; a truthy title updates `tabToTitle`,
ensures a timer entry, and starts the timer when the reporting tab is
the active one; an absent title removes the mapping. -/
def reportTitle (now : Int) (tabId : Int) (rawTitle : Option String) (s : EngineState) :
    EngineState :=
  let tid := toString tabId
  let title : Option String :=
    match rawTitle with
    | some t => if strTruthy t then some t else none
    | none => none
  match title with
  | some t =>
    let tt := aset tid t s.tabToTitle
    let m1 := ensureTitleTimer t s.titleTimers
    let m2 := if activeTabMatches s.currentActiveTabId tid then startTitleIfNeeded now t m1
              else m1
    { s with tabToTitle := tt, titleTimers := m2 }
  | none =>
    { s with tabToTitle := aerase tid s.tabToTitle }

/-- The `windowFocusChanged` branch for `WINDOW_ID_NONE`: pause all
timers and clear the active-tab pointer. -/
def windowFocusLost (now : Int) (s : EngineState) : EngineState :=
  { s with titleTimers := pauseAllTitles now s.titleTimers, currentActiveTabId := none }

/-- Externally triggered engine operations. `startT`/`stopT` expose the
internal start/stop calls directly so the invariant claim covers them. -/
inductive EngineEv where
  | report (tabId : Int) (title : Option String) : EngineEv
  | tabActivated (tabId : Option Int) : EngineEv
  | tabRemoved (tabId : Int) : EngineEv
  | focusLost : EngineEv
  | startT (title : String) : EngineEv
  | stopT (title : String) : EngineEv
deriving DecidableEq

/-- One timestamped engine operation. -/
def stepEngine (s : EngineState) : Int × EngineEv → EngineState
  | (n, .report tid t) => reportTitle n tid t s
  | (n, .tabActivated tid) => handleTabChange n tid s
  | (n, .tabRemoved tid) => handleTabRemoved n tid s
  | (n, .focusLost) => windowFocusLost n s
  | (n, .startT t) => { s with titleTimers := startTitleIfNeeded n t s.titleTimers }
  | (n, .stopT t) => { s with titleTimers := stopTitleIfNeeded n t s.titleTimers }

/-- A whole sequence of timestamped engine operations. -/
def runEngine (s : EngineState) (es : List (Int × EngineEv)) : EngineState :=
  es.foldl stepEngine s

/-- Source `n` successive `reportTitle` messages from the same tab with the
same title and no intervening events. -/
def reportN (now : Int) (tabId : Int) (title : String) : Nat → EngineState → EngineState
  | 0, s => s
  | k + 1, s => reportN now tabId title k (reportTitle now tabId (some title) s)

/-- Source `j` successive `stopTitleIfNeeded` calls on the same title. -/
def stopsN (now : Int) (title : String) :
    Nat → List (String × TimerState) → List (String × TimerState)
  | 0, m => m
  | k + 1, m => stopsN now title k (stopTitleIfNeeded now title m)

/-- All `Date.now()` values in an event sequence are positive. -/
def posTimes (es : List (Int × EngineEv)) : Prop := ∀ p ∈ es, 0 < p.1

instance (es : List (Int × EngineEv)) : Decidable (posTimes es) :=
  inferInstanceAs (Decidable (∀ p ∈ es, 0 < p.1))

/-- Per-timer invariant claimed by the spec, together with the facts
needed to preserve it: `runningSince` is set iff `activeCount > 0`, any
stored start time is positive, and the reference count is non-negative. -/
def TimerInv (t : TimerState) : Prop :=
  (t.runningSince.isSome ↔ 0 < t.activeCount) ∧
  (∀ T, t.runningSince = some T → 0 < T) ∧
  0 ≤ t.activeCount

/-- Every timer in the map satisfies `TimerInv`. -/
def TimersInv (m : List (String × TimerState)) : Prop := ∀ kv ∈ m, TimerInv kv.2

/-! ## Persistent record store (storage-manager) -/

/-- Payload of `saveProblem` (TS type
`Omit StoredProblemData minus lastAccessed and timeSpent`). -/
structure ProblemData where
  title : String
  number : Int
  difficulty : String
  problemType : String
  tags : List String
  description : String
  link : String
  isCompleted : Bool
  completedAt : Option Int
  attempts : Int
deriving DecidableEq

/-- Catalogue entry (TS interface `StoredProblemData`). -/
structure StoredProblemData extends ProblemData where
  lastAccessed : Int
  timeSpent : Int
deriving DecidableEq

/-- Recommendation entry (TS interface `SimilarQuestion`); the optional
acceptance rate is a decimal number, modelled as `Rat`. -/
structure SimilarQuestion where
  title : String
  number : Int
  difficulty : String
  tags : List String
  link : String
  acceptanceRate : Option Rat
deriving DecidableEq

/-- Per-tag statistics record. -/
structure TagStat where
  count : Int
  completed : Int
  totalTime : Int
  lastAccessed : Int
deriving DecidableEq

/-- Store settings. -/
structure StoreSettings where
  maxStoredProblems : Int
  autoSave : Bool
  maxRecommendations : Int
deriving DecidableEq

/-- The whole persisted document (TS interface `ProblemStorage`). -/
structure ProblemStorage where
  problems : List (String × StoredProblemData)
  lastUsedProblemId : Option String
  recommendations : List (String × List SimilarQuestion)
  revisions : List (String × StoredProblemData)
  tagStats : List (String × TagStat)
  settings : StoreSettings
deriving DecidableEq

/-- One character of the slug: the regex replace of `[^a-z0-9]` by `-`
applied after `toLowerCase()`. -/
def slugChar (c : Char) : Char :=
  if ('a' ≤ c ∧ c ≤ 'z') ∨ ('0' ≤ c ∧ c ≤ '9') then c else '-'

/-- Source `generateProblemId(problemData)`: the template string
`number-slug(title.toLowerCase())`, character-wise lowering (ASCII, as
both sides treat the problem titles in this catalogue). -/
def generateProblemId (d : ProblemData) : String :=
  toString d.number ++ "-" ++ String.mk (d.title.data.map (fun c => slugChar c.toLower))

/-- Comparator of `cleanupOldProblems`: sort entries by `lastAccessed`
ascending (JS `sort` is stable; `List.insertionSort` is its stable
counterpart here). -/
def byLastAccessed (a b : String × StoredProblemData) : Prop :=
  a.2.lastAccessed ≤ b.2.lastAccessed

instance : DecidableRel byLastAccessed := fun a b =>
  inferInstanceAs (Decidable (a.2.lastAccessed ≤ b.2.lastAccessed))

instance : IsTotal (String × StoredProblemData) byLastAccessed :=
  ⟨fun a b => Int.le_total a.2.lastAccessed b.2.lastAccessed⟩

instance : IsTrans (String × StoredProblemData) byLastAccessed :=
  ⟨fun _ _ _ hab hbc => le_trans hab hbc⟩

/-- Source `cleanupOldProblems(storage)`: when the catalogue exceeds
`settings.maxStoredProblems`, delete the excess entries with the
smallest `lastAccessed` (oldest first). -/
def cleanupOldProblems (s : ProblemStorage) : ProblemStorage :=
  let problems := s.problems
  let maxP := s.settings.maxStoredProblems
  if (problems.length : Int) ≤ maxP then s
  else
    let sorted := List.insertionSort byLastAccessed problems
    let toRemove := sorted.take ((problems.length : Int) - maxP).toNat
    { s with problems := toRemove.foldl (fun m kv => aerase kv.1 m) s.problems }

/-- Source `saveProblem(problemData)`: derive the id, preserve any existing
record's `timeSpent` (default `0`), stamp `lastAccessed = now`, record
the id as `lastUsedProblemId`, then run the eviction pass. -/
def saveProblem (now : Int) (d : ProblemData) (s : ProblemStorage) : ProblemStorage :=
  let problemId := generateProblemId d
  let existingTimeSpent :=
    match alookup problemId s.problems with
    | some p => p.timeSpent
    | none => 0
  let updatedProblem : StoredProblemData :=
    { toProblemData := d, lastAccessed := now, timeSpent := existingTimeSpent }
  let s1 := { s with problems := aset problemId updatedProblem s.problems,
                     lastUsedProblemId := some problemId }
  cleanupOldProblems s1

/-- Source `updateTimeSpent(problemId, additionalTime)`: add to an existing
record's `timeSpent` and refresh `lastAccessed`; silently no-op when the
record does not exist. -/
def updateTimeSpent (now : Int) (problemId : String) (additionalTime : Int)
    (s : ProblemStorage) : ProblemStorage :=
  match alookup problemId s.problems with
  | none => s
  | some p =>
    let p1 : StoredProblemData :=
      { p with timeSpent := p.timeSpent + additionalTime, lastAccessed := now }
    { s with problems := aset problemId p1 s.problems }

/-- Default tag-statistics record created on first sight of a tag. -/
def initTagStat : TagStat := ⟨0, 0, 0, 0⟩

/-- Body of the `updateTagStats` loop on one tag's record: `count++`,
`totalTime += problem.timeSpent`, `lastAccessed = problem.lastAccessed`,
and `completed++` when the update is for a completion. -/
def bumpTagStat (p : StoredProblemData) (isCompleted : Bool) (ts : TagStat) : TagStat :=
  { count := ts.count + 1,
    completed := ts.completed + (if isCompleted then 1 else 0),
    totalTime := ts.totalTime + p.timeSpent,
    lastAccessed := p.lastAccessed }

/-- Source `updateTagStats(storage, problem, isCompleted)`: fold the bump over
`problem.tags`, creating missing records with `initTagStat`. -/
def updateTagStats (stats : List (String × TagStat)) (p : StoredProblemData)
    (isCompleted : Bool) : List (String × TagStat) :=
  p.tags.foldl
    (fun st tag => aset tag (bumpTagStat p isCompleted ((alookup tag st).getD initTagStat)) st)
    stats

/-- Source `markProblemCompleted(problemId)`: when the record exists, set
`isCompleted`, stamp `completedAt`, bump `attempts` (the JS
`(attempts || 0) + 1` maps `0` falsy to `0`), snapshot the updated
record into `revisions`, and update the tag statistics — all before the
single persisted write. -/
def markProblemCompleted (now : Int) (problemId : String) (s : ProblemStorage) :
    ProblemStorage :=
  match alookup problemId s.problems with
  | none => s
  | some p =>
    let p1 : StoredProblemData :=
      { p with isCompleted := true, completedAt := some now,
               attempts := (if p.attempts = 0 then 0 else p.attempts) + 1 }
    { s with problems := aset problemId p1 s.problems,
             revisions := aset problemId p1 s.revisions,
             tagStats := updateTagStats s.tagStats p1 true }

/-- Source `addRecommendations(problemId, recommendations)`: store at most
`settings.maxRecommendations` entries, replacing any prior list. -/
def addRecommendations (problemId : String) (recs : List SimilarQuestion)
    (s : ProblemStorage) : ProblemStorage :=
  let capped := recs.take s.settings.maxRecommendations.toNat
  { s with recommendations := aset problemId capped s.recommendations }

/-- Source `getProblem(problemId)`: a pure read — it returns the storage it
loaded untouched (no save, hence no eviction). -/
def getProblem (problemId : String) (s : ProblemStorage) :
    ProblemStorage × Option StoredProblemData :=
  (s, alookup problemId s.problems)

/-- Source `getAllProblems()`: a pure read of the catalogue. -/
def getAllProblems (s : ProblemStorage) :
    ProblemStorage × List (String × StoredProblemData) :=
  (s, s.problems)

/-- Source `getRevisionProblems()`: a pure read of the revision catalogue. -/
def getRevisionProblems (s : ProblemStorage) :
    ProblemStorage × List StoredProblemData :=
  (s, s.revisions.map Prod.snd)

/-- Source `getTagStats()`: a pure read of the tag statistics. -/
def getTagStats (s : ProblemStorage) :
    ProblemStorage × List (String × TagStat) :=
  (s, s.tagStats)

/-! ## JSON document model (export/import)

`JSON.parse` / `JSON.stringify` are platform built-ins, not repository
code; export and import are therefore modelled at the level of the JSON
value they exchange. -/

/-- JSON values. Numbers are decimal literals, modelled as `Rat`. -/
inductive Json where
  | null : Json
  | bool : Bool → Json
  | num : Rat → Json
  | str : String → Json
  | arr : List Json → Json
  | obj : List (String × Json) → Json

/-- JS truthiness of a parsed JSON value. -/
def jsonTruthy : Json → Bool
  | .null => false
  | .bool b => b
  | .num q => q != 0
  | .str s => s != ""
  | .arr _ => true
  | .obj _ => true

/-- JS `typeof x === 'object'` on a parsed JSON value (`null` and arrays
included). -/
def jsonTypeofObject : Json → Bool
  | .null => true
  | .arr _ => true
  | .obj _ => true
  | _ => false

/-- The `importedData.problems` access: field of an object, `undefined`
otherwise. -/
def problemsField : Json → Option Json
  | .obj fs => alookup "problems" fs
  | _ => none

/-- The import validation
`!importedData.problems || typeof importedData.problems !== 'object'`
(negated: the import proceeds only when this returns `true`). -/
def validImport (j : Json) : Bool :=
  match problemsField j with
  | some p => jsonTruthy p && jsonTypeofObject p
  | none => false

/-- Source `importData(jsonData)` against the previously persisted document
`prior`: on validation success the parsed document replaces the store
wholesale and `true` is returned; otherwise `false` is returned and the
prior document is untouched. -/
def importData (prior j : Json) : Bool × Json :=
  if validImport j then (true, j) else (false, prior)

/-- Encoding of an optional trailing object field: `undefined` fields
are omitted by `JSON.stringify`. -/
def encodeOptField (k : String) (f : α → Json) : Option α → List (String × Json)
  | some v => [(k, f v)]
  | none => []

/-- Source `JSON.stringify` of a catalogue entry. -/
def encodeProblem (p : StoredProblemData) : Json :=
  .obj ([("title", .str p.title), ("number", .num p.number),
         ("difficulty", .str p.difficulty), ("problemType", .str p.problemType),
         ("tags", .arr (p.tags.map .str)), ("description", .str p.description),
         ("link", .str p.link), ("isCompleted", .bool p.isCompleted)]
        ++ encodeOptField "completedAt" (fun t => .num t) p.completedAt
        ++ [("attempts", .num p.attempts), ("lastAccessed", .num p.lastAccessed),
            ("timeSpent", .num p.timeSpent)])

/-- Source `JSON.stringify` of a recommendation entry. -/
def encodeSimilar (q : SimilarQuestion) : Json :=
  .obj ([("title", .str q.title), ("number", .num q.number),
         ("difficulty", .str q.difficulty), ("tags", .arr (q.tags.map .str)),
         ("link", .str q.link)]
        ++ encodeOptField "acceptanceRate" Json.num q.acceptanceRate)

/-- Source `JSON.stringify` of a tag-statistics record. -/
def encodeTagStat (t : TagStat) : Json :=
  .obj [("count", .num t.count), ("completed", .num t.completed),
        ("totalTime", .num t.totalTime), ("lastAccessed", .num t.lastAccessed)]

/-- Source `JSON.stringify` of the settings record. -/
def encodeSettings (st : StoreSettings) : Json :=
  .obj [("maxStoredProblems", .num st.maxStoredProblems),
        ("autoSave", .bool st.autoSave),
        ("maxRecommendations", .num st.maxRecommendations)]

/-- Source `exportData()`: `JSON.stringify` of the whole persisted document. -/
def exportData (s : ProblemStorage) : Json :=
  .obj [("problems", .obj (s.problems.map (fun kv => (kv.1, encodeProblem kv.2)))),
        ("lastUsedProblemId",
          match s.lastUsedProblemId with | some i => .str i | none => .null),
        ("recommendations",
          .obj (s.recommendations.map (fun kv => (kv.1, .arr (kv.2.map encodeSimilar))))),
        ("revisions", .obj (s.revisions.map (fun kv => (kv.1, encodeProblem kv.2)))),
        ("tagStats", .obj (s.tagStats.map (fun kv => (kv.1, encodeTagStat kv.2)))),
        ("settings", encodeSettings s.settings)]

/-- Concrete catalogue entry used as a test fixture. -/
def exProblemA : StoredProblemData :=
  ⟨⟨"a", 1, "E", "", [], "", "", false, none, 0⟩, 10, 0⟩

/-- Concrete catalogue entry used as a test fixture. -/
def exProblemB : StoredProblemData :=
  ⟨⟨"b", 2, "E", "", [], "", "", false, none, 0⟩, 5, 0⟩

/-- Concrete two-record store at cap 2, used as a test fixture. -/
def exStore : ProblemStorage :=
  ⟨[("1-a", exProblemA), ("2-b", exProblemB)], none, [], [], [], ⟨2, true, 20⟩⟩

/-- Concrete fresh save payload used as a test fixture. -/
def exPayloadC : ProblemData := ⟨"c", 3, "E", "", [], "", "", false, none, 0⟩

/-- Concrete catalogue entry with banked time, used as a test fixture. -/
def exProblemTS : StoredProblemData :=
  ⟨⟨"a", 1, "E", "", [], "", "", false, none, 0⟩, 10, 42⟩

/-- Concrete store holding `exProblemTS` under cap 50, used as a test
fixture. -/
def exStoreTS : ProblemStorage :=
  ⟨[("1-a", exProblemTS)], none, [], [], [], ⟨50, true, 20⟩⟩

/-- The same store with the retention cap set to 0, used as a test
fixture. -/
def exStoreCap0 : ProblemStorage :=
  ⟨[("1-a", exProblemTS)], none, [], [], [], ⟨0, true, 20⟩⟩

/-- Concrete re-save payload whose derived id is `1-a`, used as a test
fixture. -/
def exPayloadA : ProblemData := ⟨"a", 1, "Easy", "", [], "", "", false, none, 0⟩

/-- Read a JSON string. -/
def asStr : Json → Option String
  | .str s => some s
  | _ => none

/-- Read a JSON number as an integer. -/
def asInt : Json → Option Int
  | .num q => if q.den = 1 then some q.num else none
  | _ => none

/-- Read a JSON number. -/
def asRat : Json → Option Rat
  | .num q => some q
  | _ => none

/-- Read a JSON boolean. -/
def asBool : Json → Option Bool
  | .bool b => some b
  | _ => none

/-- Read a JSON object's field list. -/
def asObj : Json → Option (List (String × Json))
  | .obj fs => some fs
  | _ => none

/-- Read a JSON array. -/
def asArr : Json → Option (List Json)
  | .arr xs => some xs
  | _ => none

/-- Decode every element of a JSON array, failing if any element
fails. -/
def decodeList {α : Type} (dec : Json → Option α) : List Json → Option (List α)
  | [] => some []
  | j :: r =>
    match dec j, decodeList dec r with
    | some v, some vs => some (v :: vs)
    | _, _ => none

/-- Decode every value of a JSON object's field list, failing if any
value fails. -/
def decodePairs {α : Type} (dec : Json → Option α) :
    List (String × Json) → Option (List (String × α))
  | [] => some []
  | (k, j) :: r =>
    match dec j, decodePairs dec r with
    | some v, some vs => some ((k, v) :: vs)
    | _, _ => none

/-- Read a JSON array of strings. -/
def asStrList (j : Json) : Option (List String) :=
  (asArr j).bind (decodeList asStr)

/-- How the store reads back a catalogue entry from a persisted
document. -/
def decodeProblem (j : Json) : Option StoredProblemData := do
  let fs ← asObj j
  let title ← (alookup "title" fs).bind asStr
  let number ← (alookup "number" fs).bind asInt
  let difficulty ← (alookup "difficulty" fs).bind asStr
  let problemType ← (alookup "problemType" fs).bind asStr
  let tags ← (alookup "tags" fs).bind asStrList
  let description ← (alookup "description" fs).bind asStr
  let link ← (alookup "link" fs).bind asStr
  let isCompleted ← (alookup "isCompleted" fs).bind asBool
  let completedAt := (alookup "completedAt" fs).bind asInt
  let attempts ← (alookup "attempts" fs).bind asInt
  let lastAccessed ← (alookup "lastAccessed" fs).bind asInt
  let timeSpent ← (alookup "timeSpent" fs).bind asInt
  pure ⟨⟨title, number, difficulty, problemType, tags, description, link,
         isCompleted, completedAt, attempts⟩, lastAccessed, timeSpent⟩

/-- How the store reads back a recommendation entry. -/
def decodeSimilar (j : Json) : Option SimilarQuestion := do
  let fs ← asObj j
  let title ← (alookup "title" fs).bind asStr
  let number ← (alookup "number" fs).bind asInt
  let difficulty ← (alookup "difficulty" fs).bind asStr
  let tags ← (alookup "tags" fs).bind asStrList
  let link ← (alookup "link" fs).bind asStr
  let acceptanceRate := (alookup "acceptanceRate" fs).bind asRat
  pure ⟨title, number, difficulty, tags, link, acceptanceRate⟩

/-- How the store reads back a tag-statistics record. -/
def decodeTagStat (j : Json) : Option TagStat := do
  let fs ← asObj j
  let count ← (alookup "count" fs).bind asInt
  let completed ← (alookup "completed" fs).bind asInt
  let totalTime ← (alookup "totalTime" fs).bind asInt
  let lastAccessed ← (alookup "lastAccessed" fs).bind asInt
  pure ⟨count, completed, totalTime, lastAccessed⟩

/-- How the store reads back the settings record. -/
def decodeSettings (j : Json) : Option StoreSettings := do
  let fs ← asObj j
  let maxStoredProblems ← (alookup "maxStoredProblems" fs).bind asInt
  let autoSave ← (alookup "autoSave" fs).bind asBool
  let maxRecommendations ← (alookup "maxRecommendations" fs).bind asInt
  pure ⟨maxStoredProblems, autoSave, maxRecommendations⟩

/-- Decode a JSON object as a keyed catalogue, decoding every value. -/
def decodeEntries {α : Type} (dec : Json → Option α) (j : Json) :
    Option (List (String × α)) :=
  (asObj j).bind (decodePairs dec)

/-- How the store reads back a whole persisted document. -/
def decodeStorage (j : Json) : Option ProblemStorage := do
  let fs ← asObj j
  let problems ← (alookup "problems" fs).bind (decodeEntries decodeProblem)
  let lastUsedProblemId ←
    match alookup "lastUsedProblemId" fs with
    | some .null => some none
    | some (.str i) => some (some i)
    | _ => none
  let recommendations ← (alookup "recommendations" fs).bind
      (decodeEntries (fun v => (asArr v).bind (decodeList decodeSimilar)))
  let revisions ← (alookup "revisions" fs).bind (decodeEntries decodeProblem)
  let tagStats ← (alookup "tagStats" fs).bind (decodeEntries decodeTagStat)
  let settings ← (alookup "settings" fs).bind decodeSettings
  pure ⟨problems, lastUsedProblemId, recommendations, revisions, tagStats, settings⟩

/-! ## Association-list lemmas -/

theorem alookup_aset_self {α : Type} (k : String) (v : α) (m : List (String × α)) :
    alookup k (aset k v m) = some v := by
  induction m with
  | nil => simp [aset, alookup]
  | cons kv r ih =>
    cases kv with
    | mk k0 v0 =>
      by_cases h0 : k0 = k
      · simp [aset, alookup, h0]
      · simp [aset, alookup, h0, ih]

theorem alookup_aset_ne {α : Type} {k k' : String} (h : k' ≠ k) (v : α)
    (m : List (String × α)) : alookup k' (aset k v m) = alookup k' m := by
  have hk : k ≠ k' := fun hh => h hh.symm
  induction m with
  | nil => simp [aset, alookup, hk]
  | cons kv r ih =>
    cases kv with
    | mk k0 v0 =>
      by_cases h0 : k0 = k
      · subst h0
        simp [aset, alookup, hk]
      · simp [aset, alookup, h0, ih]

theorem mem_of_alookup {α : Type} {k : String} {v : α} {m : List (String × α)}
    (h : alookup k m = some v) : (k, v) ∈ m := by
  induction m with
  | nil => simp [alookup] at h
  | cons kv r ih =>
    cases kv with
    | mk k0 v0 =>
      by_cases h0 : k0 = k
      · subst h0
        simp [alookup] at h
        simp [h]
      · simp [alookup, h0] at h
        exact List.mem_cons_of_mem _ (ih h)

theorem length_aset_absent {α : Type} {k : String} {m : List (String × α)}
    (h : alookup k m = none) (v : α) : (aset k v m).length = m.length + 1 := by
  induction m with
  | nil => simp [aset]
  | cons kv r ih =>
    cases kv with
    | mk k0 v0 =>
      by_cases h0 : k0 = k
      · simp [alookup, h0] at h
      · simp only [alookup, h0, if_false] at h
        simp [aset, h0, ih h]

theorem length_aset_present {α : Type} {k : String} {v0 : α} {m : List (String × α)}
    (h : alookup k m = some v0) (v : α) : (aset k v m).length = m.length := by
  induction m with
  | nil => simp [alookup] at h
  | cons kv r ih =>
    cases kv with
    | mk k1 v1 =>
      by_cases h0 : k1 = k
      · simp [aset, h0]
      · simp only [alookup, h0, if_false] at h
        simp [aset, h0, ih h]

theorem aset_absent_eq_append {α : Type} {k : String} {m : List (String × α)}
    (h : alookup k m = none) (v : α) : aset k v m = m ++ [(k, v)] := by
  induction m with
  | nil => simp [aset]
  | cons kv r ih =>
    cases kv with
    | mk k0 v0 =>
      by_cases h0 : k0 = k
      · simp [alookup, h0] at h
      · simp only [alookup, h0, if_false] at h
        simp [aset, h0, ih h]

/-! ## Timer lemmas (background.js, claims C1 to C3) -/

theorem twf_of_not_running {t : TimerState} {p : Int} (h : TWF t p)
    (h0 : ¬ 0 < t.activeCount) : t.runningSince = none := by
  obtain ⟨hiff, -, -, -⟩ := h
  cases hrs : t.runningSince with
  | none => rfl
  | some T => exact absurd (hiff.mpr (by simp [hrs])) h0

theorem twf_of_running {t : TimerState} {p : Int} (h : TWF t p)
    (h0 : 0 < t.activeCount) : ∃ T, t.runningSince = some T ∧ 0 < T ∧ T ≤ p := by
  obtain ⟨hiff, hts, -, -⟩ := h
  cases hrs : t.runningSince with
  | none =>
    have := hiff.mp h0
    rw [hrs] at this
    simp at this
  | some T => exact ⟨T, rfl, hts T hrs⟩

theorem tsTruthy_some_pos {T : Int} (h : 0 < T) : tsTruthy (some T) = true := by
  simp [tsTruthy]
  omega

theorem startTimer_eq_idle {t : TimerState} {n : Int} (h0 : t.activeCount = 0)
    (hrs : t.runningSince = none) :
    startTimer n t = ⟨t.accumulated, some n, t.activeCount + 1⟩ := by
  simp [startTimer, h0, hrs, tsTruthy]

theorem startTimer_eq_busy {t : TimerState} {n : Int} (h0 : t.activeCount ≠ 0) :
    startTimer n t = ⟨t.accumulated, t.runningSince, t.activeCount + 1⟩ := by
  simp [startTimer, h0]

theorem stopTimer_eq_zero {t : TimerState} {n : Int} (h0 : t.activeCount ≤ 0)
    (hrs : t.runningSince = none) :
    stopTimer n t = ⟨t.accumulated, none, 0⟩ := by
  have h1 : ¬ 0 < t.activeCount := by omega
  simp [stopTimer, h0, h1, hrs, tsTruthy]

theorem stopTimer_eq_one {t : TimerState} {n T : Int} (h1 : t.activeCount = 1)
    (hrs : t.runningSince = some T) (hT : T ≠ 0) :
    stopTimer n t = ⟨t.accumulated + (n - T), none, 0⟩ := by
  have h0 : 0 < t.activeCount := by omega
  have h2 : t.activeCount - 1 ≤ 0 := by omega
  simp [stopTimer, h0, h1, h2, hrs, tsTruthy, hT]

theorem stopTimer_eq_many {t : TimerState} {n : Int} (h1 : 1 < t.activeCount) :
    stopTimer n t = ⟨t.accumulated, t.runningSince, t.activeCount - 1⟩ := by
  have h0 : 0 < t.activeCount := by omega
  have h2 : ¬ (t.activeCount - 1 ≤ 0) := by omega
  simp [stopTimer, h0, h2]

theorem twf_stepTimer {t : TimerState} {p n : Int} (h : TWF t p) (hpn : p ≤ n)
    (hp : 0 < p) (e : TimerEv) : TWF (stepTimer t (n, e)) n := by
  obtain ⟨hiff, hts, hcnt, hacc⟩ := h
  cases e with
  | start =>
    by_cases h0 : t.activeCount = 0
    · have hrs : t.runningSince = none :=
        twf_of_not_running ⟨hiff, hts, hcnt, hacc⟩ (by omega)
      rw [show stepTimer t (n, .start) = startTimer n t from rfl,
          startTimer_eq_idle h0 hrs]
      refine ⟨by simp; omega, ?_, by simp; omega, hacc⟩
      intro T hT
      simp at hT
      omega
    · obtain ⟨T, hrs, hT, hTp⟩ := twf_of_running ⟨hiff, hts, hcnt, hacc⟩ (by omega)
      rw [show stepTimer t (n, .start) = startTimer n t from rfl,
          startTimer_eq_busy h0]
      refine ⟨by simp [hrs]; omega, ?_, by simp; omega, hacc⟩
      intro T' hT'
      simp [hrs] at hT'
      omega
  | stop =>
    by_cases h0 : 0 < t.activeCount
    · obtain ⟨T, hrs, hT, hTp⟩ := twf_of_running ⟨hiff, hts, hcnt, hacc⟩ h0
      by_cases h1 : t.activeCount = 1
      · rw [show stepTimer t (n, .stop) = stopTimer n t from rfl,
            stopTimer_eq_one h1 hrs (by omega)]
        exact ⟨by simp, by simp, by simp, by simp; omega⟩
      · rw [show stepTimer t (n, .stop) = stopTimer n t from rfl,
            stopTimer_eq_many (by omega)]
        refine ⟨by simp [hrs]; omega, ?_, by simp; omega, hacc⟩
        intro T' hT'
        simp [hrs] at hT'
        omega
    · have hrs : t.runningSince = none :=
        twf_of_not_running ⟨hiff, hts, hcnt, hacc⟩ h0
      rw [show stepTimer t (n, .stop) = stopTimer n t from rfl,
          stopTimer_eq_zero (by omega) hrs]
      exact ⟨by simp, by simp, by simp, hacc⟩

theorem phi_stepTimer {t : TimerState} {p n : Int} (h : TWF t p) (_hpn : p ≤ n)
    (e : TimerEv) : phi (stepTimer t (n, e)) n = phi t n := by
  obtain ⟨hiff, hts, hcnt, hacc⟩ := h
  cases e with
  | start =>
    by_cases h0 : t.activeCount = 0
    · have hrs : t.runningSince = none :=
        twf_of_not_running ⟨hiff, hts, hcnt, hacc⟩ (by omega)
      rw [show stepTimer t (n, .start) = startTimer n t from rfl,
          startTimer_eq_idle h0 hrs]
      simp [phi, hrs]
    · rw [show stepTimer t (n, .start) = startTimer n t from rfl,
          startTimer_eq_busy h0]
      simp [phi]
  | stop =>
    by_cases h0 : 0 < t.activeCount
    · obtain ⟨T, hrs, hT, hTp⟩ := twf_of_running ⟨hiff, hts, hcnt, hacc⟩ h0
      by_cases h1 : t.activeCount = 1
      · rw [show stepTimer t (n, .stop) = stopTimer n t from rfl,
            stopTimer_eq_one h1 hrs (by omega)]
        simp [phi, hrs]
      · rw [show stepTimer t (n, .stop) = stopTimer n t from rfl,
            stopTimer_eq_many (by omega)]
        simp [phi]
    · have hrs : t.runningSince = none :=
        twf_of_not_running ⟨hiff, hts, hcnt, hacc⟩ h0
      rw [show stepTimer t (n, .stop) = stopTimer n t from rfl,
          stopTimer_eq_zero (by omega) hrs]
      simp [phi, hrs]

theorem phi_shift {t : TimerState} {p n : Int} (h : TWF t p) :
    phi t n = phi t p + (if 0 < t.activeCount then n - p else 0) := by
  by_cases h0 : 0 < t.activeCount
  · obtain ⟨T, hrs, -, -⟩ := twf_of_running h h0
    simp [phi, hrs, h0]
    omega
  · have hrs : t.runningSince = none := twf_of_not_running h h0
    simp [phi, hrs, h0]

theorem acc_stepTimer_mono {t : TimerState} {p n : Int} (h : TWF t p) (hpn : p ≤ n)
    (e : TimerEv) : t.accumulated ≤ (stepTimer t (n, e)).accumulated := by
  obtain ⟨hiff, hts, hcnt, hacc⟩ := h
  cases e with
  | start =>
    by_cases h0 : t.activeCount = 0
    · have hrs : t.runningSince = none :=
        twf_of_not_running ⟨hiff, hts, hcnt, hacc⟩ (by omega)
      rw [show stepTimer t (n, .start) = startTimer n t from rfl,
          startTimer_eq_idle h0 hrs]
    · rw [show stepTimer t (n, .start) = startTimer n t from rfl,
          startTimer_eq_busy h0]
  | stop =>
    by_cases h0 : 0 < t.activeCount
    · obtain ⟨T, hrs, hT, hTp⟩ := twf_of_running ⟨hiff, hts, hcnt, hacc⟩ h0
      by_cases h1 : t.activeCount = 1
      · rw [show stepTimer t (n, .stop) = stopTimer n t from rfl,
            stopTimer_eq_one h1 hrs (by omega)]
        simp
        omega
      · rw [show stepTimer t (n, .stop) = stopTimer n t from rfl,
            stopTimer_eq_many (by omega)]
    · have hrs : t.runningSince = none :=
        twf_of_not_running ⟨hiff, hts, hcnt, hacc⟩ h0
      rw [show stepTimer t (n, .stop) = stopTimer n t from rfl,
          stopTimer_eq_zero (by omega) hrs]

theorem le_finT {p : Int} {es : List (Int × TimerEv)} (h : validSeq p es) :
    p ≤ finT p es := by
  induction es generalizing p with
  | nil => simp [finT]
  | cons ne r ih =>
    obtain ⟨n, e⟩ := ne
    obtain ⟨hpn, hr⟩ := h
    exact le_trans hpn (ih hr)

theorem twf_runTimer {t : TimerState} {p : Int} {es : List (Int × TimerEv)}
    (h : TWF t p) (hp : 0 < p) (hv : validSeq p es) :
    TWF (runTimer t es) (finT p es) := by
  induction es generalizing t p with
  | nil => exact h
  | cons ne r ih =>
    obtain ⟨n, e⟩ := ne
    obtain ⟨hpn, hr⟩ := hv
    exact ih (twf_stepTimer h hpn hp e) (by omega) hr

theorem phi_runTimer {t : TimerState} {p : Int} {es : List (Int × TimerEv)}
    (h : TWF t p) (hp : 0 < p) (hv : validSeq p es) :
    phi (runTimer t es) (finT p es) = phi t p + activeTime t p es := by
  induction es generalizing t p with
  | nil => simp [runTimer, finT, activeTime]
  | cons ne r ih =>
    obtain ⟨n, e⟩ := ne
    obtain ⟨hpn, hr⟩ := hv
    have hstep := twf_stepTimer h hpn hp e
    calc phi (runTimer t ((n, e) :: r)) (finT p ((n, e) :: r))
        = phi (runTimer (stepTimer t (n, e)) r) (finT n r) := rfl
      _ = phi (stepTimer t (n, e)) n + activeTime (stepTimer t (n, e)) n r :=
          ih hstep (by omega) hr
      _ = phi t n + activeTime (stepTimer t (n, e)) n r := by
          rw [phi_stepTimer h hpn e]
      _ = phi t p + ((if 0 < t.activeCount then n - p else 0)
            + activeTime (stepTimer t (n, e)) n r) := by
          rw [phi_shift h]; ring
      _ = phi t p + activeTime t p ((n, e) :: r) := rfl

theorem acc_runTimer_mono {t : TimerState} {p : Int} {es : List (Int × TimerEv)}
    (h : TWF t p) (hp : 0 < p) (hv : validSeq p es) :
    t.accumulated ≤ (runTimer t es).accumulated := by
  induction es generalizing t p with
  | nil => exact le_refl _
  | cons ne r ih =>
    obtain ⟨n, e⟩ := ne
    obtain ⟨hpn, hr⟩ := hv
    exact le_trans (acc_stepTimer_mono h hpn e)
      (ih (twf_stepTimer h hpn hp e) (by omega) hr)

theorem validSeq_append {p : Int} {a b : List (Int × TimerEv)} (h : validSeq p (a ++ b)) :
    validSeq p a ∧ validSeq (finT p a) b := by
  induction a generalizing p with
  | nil => exact ⟨trivial, h⟩
  | cons ne r ih =>
    obtain ⟨n, e⟩ := ne
    obtain ⟨hpn, hr⟩ := h
    obtain ⟨h1, h2⟩ := ih hr
    exact ⟨⟨hpn, h1⟩, h2⟩

theorem twf_initTimer (p : Int) : TWF initTimer p := by
  refine ⟨by simp [initTimer], by simp [initTimer], by simp [initTimer], by simp [initTimer]⟩

theorem acc_stepTimer_char {t : TimerState} {p n : Int} (h : TWF t p) (e : TimerEv) :
    (stepTimer t (n, e)).accumulated
      = t.accumulated
        + (if 0 < t.activeCount ∧ (stepTimer t (n, e)).activeCount = 0
           then n - t.runningSince.getD 0 else 0) := by
  obtain ⟨hiff, hts, hcnt, hacc⟩ := h
  cases e with
  | start =>
    by_cases h0 : t.activeCount = 0
    · have hrs : t.runningSince = none :=
        twf_of_not_running ⟨hiff, hts, hcnt, hacc⟩ (by omega)
      rw [show stepTimer t (n, .start) = startTimer n t from rfl,
          startTimer_eq_idle h0 hrs]
      simp [h0]
    · rw [show stepTimer t (n, .start) = startTimer n t from rfl,
          startTimer_eq_busy h0]
      have : ¬ (t.activeCount + 1 = 0) := by omega
      simp [this]
  | stop =>
    by_cases h0 : 0 < t.activeCount
    · obtain ⟨T, hrs, hT, hTp⟩ := twf_of_running ⟨hiff, hts, hcnt, hacc⟩ h0
      by_cases h1 : t.activeCount = 1
      · rw [show stepTimer t (n, .stop) = stopTimer n t from rfl,
            stopTimer_eq_one h1 hrs (by omega)]
        simp [h0, hrs]
      · rw [show stepTimer t (n, .stop) = stopTimer n t from rfl,
            stopTimer_eq_many (by omega)]
        have : ¬ (t.activeCount - 1 = 0) := by omega
        simp [this]
    · have hrs : t.runningSince = none :=
        twf_of_not_running ⟨hiff, hts, hcnt, hacc⟩ h0
      rw [show stepTimer t (n, .stop) = stopTimer n t from rfl,
          stopTimer_eq_zero (by omega) hrs]
      simp [h0]

/-- C1: over any wall-clock-valid sequence of start/stop events on one
title, `accumulated` is monotonically non-decreasing across every
prefix; once the final state is Idle (`activeCount = 0`), `accumulated`
equals the sum of the wall-clock durations of the intervals during
which `activeCount > 0`; and at every single step, `accumulated` grows
by exactly `now - runningSince` precisely at a running-to-not-running
transition and is unchanged otherwise. -/
theorem timer_accumulated_accounting (es : List (Int × TimerEv)) (hv : validSeq 1 es) :
    (∀ es₁ es₂, es = es₁ ++ es₂ →
        (runTimer initTimer es₁).accumulated ≤ (runTimer initTimer es).accumulated)
    ∧ ((runTimer initTimer es).activeCount = 0 →
        (runTimer initTimer es).accumulated = activeTime initTimer 1 es)
    ∧ (∀ es₁ n e es₂, es = es₁ ++ (n, e) :: es₂ →
        (stepTimer (runTimer initTimer es₁) (n, e)).accumulated
          = (runTimer initTimer es₁).accumulated
            + (if 0 < (runTimer initTimer es₁).activeCount
                 ∧ (stepTimer (runTimer initTimer es₁) (n, e)).activeCount = 0
               then n - (runTimer initTimer es₁).runningSince.getD 0 else 0)) := by
  refine ⟨?_, ?_, ?_⟩
  · intro es₁ es₂ hsplit
    subst hsplit
    obtain ⟨hv1, hv2⟩ := validSeq_append hv
    have hwf : TWF (runTimer initTimer es₁) (finT 1 es₁) :=
      twf_runTimer (twf_initTimer 1) one_pos hv1
    have hfin : (1 : Int) ≤ finT 1 es₁ := le_finT hv1
    have := acc_runTimer_mono hwf (by omega) hv2
    calc (runTimer initTimer es₁).accumulated
        ≤ (runTimer (runTimer initTimer es₁) es₂).accumulated := this
      _ = (runTimer initTimer (es₁ ++ es₂)).accumulated := by
          rw [runTimer, runTimer, runTimer, List.foldl_append]
  · intro hidle
    have hwf : TWF (runTimer initTimer es) (finT 1 es) :=
      twf_runTimer (twf_initTimer 1) one_pos hv
    have hrs : (runTimer initTimer es).runningSince = none :=
      twf_of_not_running hwf (by omega)
    have hphi := phi_runTimer (twf_initTimer 1) one_pos hv
    rw [show phi initTimer 1 = 0 from rfl] at hphi
    rw [phi, hrs] at hphi
    simpa using hphi
  · intro es₁ n e es₂ hsplit
    subst hsplit
    obtain ⟨hv1, hv2⟩ := validSeq_append hv
    have hwf : TWF (runTimer initTimer es₁) (finT 1 es₁) :=
      twf_runTimer (twf_initTimer 1) one_pos hv1
    exact acc_stepTimer_char hwf e

/-- C1 witness: the theorem applied to the two-tab scenario of the spec
(start at 1, start at 1001, stop at 2001, stop at 6001). -/
theorem timer_accumulated_accounting_witness :
    validSeq 1 [(1, TimerEv.start), (1001, TimerEv.start),
                (2001, TimerEv.stop), (6001, TimerEv.stop)]
    ∧ ((∀ es₁ es₂,
          [(1, TimerEv.start), (1001, TimerEv.start),
           (2001, TimerEv.stop), (6001, TimerEv.stop)] = es₁ ++ es₂ →
          (runTimer initTimer es₁).accumulated
            ≤ (runTimer initTimer
                [(1, TimerEv.start), (1001, TimerEv.start),
                 (2001, TimerEv.stop), (6001, TimerEv.stop)]).accumulated)
      ∧ ((runTimer initTimer
            [(1, TimerEv.start), (1001, TimerEv.start),
             (2001, TimerEv.stop), (6001, TimerEv.stop)]).activeCount = 0 →
          (runTimer initTimer
            [(1, TimerEv.start), (1001, TimerEv.start),
             (2001, TimerEv.stop), (6001, TimerEv.stop)]).accumulated
            = activeTime initTimer 1
                [(1, TimerEv.start), (1001, TimerEv.start),
                 (2001, TimerEv.stop), (6001, TimerEv.stop)])
      ∧ (∀ es₁ n e es₂,
          [(1, TimerEv.start), (1001, TimerEv.start),
           (2001, TimerEv.stop), (6001, TimerEv.stop)] = es₁ ++ (n, e) :: es₂ →
          (stepTimer (runTimer initTimer es₁) (n, e)).accumulated
            = (runTimer initTimer es₁).accumulated
              + (if 0 < (runTimer initTimer es₁).activeCount
                   ∧ (stepTimer (runTimer initTimer es₁) (n, e)).activeCount = 0
                 then n - (runTimer initTimer es₁).runningSince.getD 0 else 0))) :=
  ⟨by decide, timer_accumulated_accounting _ (by decide)⟩

/-- C3 counterexample: the claim quantifies over every timer state with
non-negative `accumulated` and `activeCount`, but a state whose
`runningSince` lies in the future of the stop call (impossible under a
monotone wall clock, yet allowed by the claim's hypotheses) drives
`accumulated` negative: stopping `⟨0, some 1, 0⟩` at time 0 yields
`accumulated = -1`. -/
theorem stop_nonneg_cex :
    (0 ≤ (⟨0, some 1, 0⟩ : TimerState).accumulated
      ∧ 0 ≤ (⟨0, some 1, 0⟩ : TimerState).activeCount)
    ∧ (stopTimer 0 ⟨0, some 1, 0⟩).accumulated < 0 := by decide

/-- C3 amended: for every timer state with non-negative `accumulated`
and `activeCount` whose `runningSince` (when set) does not lie after the
stop call's wall-clock time, `stop` leaves both `accumulated` and
`activeCount` non-negative — including a stop with no matching prior
start (`activeCount = 0`). -/
theorem stop_nonneg (t : TimerState) (now : Int) (hacc : 0 ≤ t.accumulated)
    (hcnt : 0 ≤ t.activeCount)
    (hrs : ∀ T, t.runningSince = some T → T ≤ now) :
    0 ≤ (stopTimer now t).accumulated ∧ 0 ≤ (stopTimer now t).activeCount := by
  cases hr : t.runningSince with
  | none =>
    by_cases h0 : 0 < t.activeCount
    · by_cases h1 : t.activeCount = 1
      · have : stopTimer now t = ⟨t.accumulated, none, 0⟩ := by
          have h2 : t.activeCount - 1 ≤ 0 := by omega
          simp [stopTimer, h0, h2, hr, tsTruthy]
        rw [this]
        exact ⟨hacc, le_refl 0⟩
      · rw [stopTimer_eq_many (by omega)]
        exact ⟨hacc, by simp; omega⟩
    · rw [stopTimer_eq_zero (by omega) hr]
      exact ⟨hacc, le_refl 0⟩
  | some T =>
    have hTn : T ≤ now := hrs T hr
    by_cases hT0 : T = 0
    · subst hT0
      constructor
      · have hkeep : (stopTimer now t).accumulated = t.accumulated := by
          by_cases h0 : 0 < t.activeCount
          · by_cases h2 : t.activeCount - 1 ≤ 0
            · simp [stopTimer, h0, h2, hr, tsTruthy]
            · simp [stopTimer, h0, h2]
          · have h2 : t.activeCount ≤ 0 := by omega
            simp [stopTimer, h0, h2, hr, tsTruthy]
        rw [hkeep]
        exact hacc
      · by_cases h0 : 0 < t.activeCount
        · by_cases h2 : t.activeCount - 1 ≤ 0
          · simp [stopTimer, h0, h2, hr, tsTruthy]
          · simp [stopTimer, h0, h2]
            omega
        · have h2 : t.activeCount ≤ 0 := by omega
          simp [stopTimer, h0, h2, hr, tsTruthy]
    · by_cases h0 : 0 < t.activeCount
      · by_cases h1 : t.activeCount = 1
        · rw [stopTimer_eq_one h1 hr hT0]
          exact ⟨by simp; omega, le_refl 0⟩
        · rw [stopTimer_eq_many (by omega)]
          exact ⟨hacc, by simp; omega⟩
      · have : stopTimer now t = ⟨t.accumulated + (now - T), none, 0⟩ := by
          have h2 : t.activeCount ≤ 0 := by omega
          simp [stopTimer, h0, h2, hr, tsTruthy, hT0]
        rw [this]
        exact ⟨by simp; omega, le_refl 0⟩

/-- C3 witness: a stop with no matching prior start, on a state with a
(past, positive) `runningSince`. -/
theorem stop_nonneg_witness :
    (0 ≤ (⟨3, some 2, 0⟩ : TimerState).accumulated
      ∧ 0 ≤ (⟨3, some 2, 0⟩ : TimerState).activeCount
      ∧ (∀ T, (⟨3, some 2, 0⟩ : TimerState).runningSince = some T → T ≤ 5))
    ∧ (0 ≤ (stopTimer 5 ⟨3, some 2, 0⟩).accumulated
      ∧ 0 ≤ (stopTimer 5 ⟨3, some 2, 0⟩).activeCount) :=
  ⟨⟨by decide, by decide, by decide⟩,
    stop_nonneg ⟨3, some 2, 0⟩ 5 (by decide) (by decide) (by decide)⟩

/-! ## Engine invariant lemmas (claim C2) -/

theorem mem_aset {α : Type} {kv : String × α} {k : String} {v : α}
    {m : List (String × α)} (h : kv ∈ aset k v m) : kv = (k, v) ∨ kv ∈ m := by
  induction m with
  | nil => simp [aset] at h; simp [h]
  | cons kv0 r ih =>
    cases kv0 with
    | mk k0 v0 =>
      by_cases h0 : k0 = k
      · simp [aset, h0] at h
        rcases h with h | h
        · left; simp [h]
        · right; simp [h]
      · simp [aset, h0] at h
        rcases h with h | h
        · right; simp [h]
        · rcases ih h with h1 | h1
          · left; exact h1
          · right; simp [h1]

theorem mem_aerase {α : Type} {kv : String × α} {k : String}
    {m : List (String × α)} (h : kv ∈ aerase k m) : kv ∈ m := by
  induction m with
  | nil => simp [aerase] at h
  | cons kv0 r ih =>
    cases kv0 with
    | mk k0 v0 =>
      by_cases h0 : k0 = k
      · simp [aerase, h0] at h
        simp [h]
      · simp [aerase, h0] at h
        rcases h with h | h
        · simp [h]
        · simp [ih h]

theorem timerInv_initTimer : TimerInv initTimer := by
  refine ⟨by simp [initTimer], by simp [initTimer], by simp [initTimer]⟩

theorem timerInv_of_running {t : TimerState} (h : TimerInv t)
    (h0 : 0 < t.activeCount) : ∃ T, t.runningSince = some T ∧ 0 < T := by
  obtain ⟨hiff, hts, -⟩ := h
  cases hrs : t.runningSince with
  | none =>
    have := hiff.mpr h0
    rw [hrs] at this
    simp at this
  | some T => exact ⟨T, rfl, hts T hrs⟩

theorem timerInv_of_not_running {t : TimerState} (h : TimerInv t)
    (h0 : ¬ 0 < t.activeCount) : t.runningSince = none := by
  obtain ⟨hiff, -, -⟩ := h
  cases hrs : t.runningSince with
  | none => rfl
  | some T => exact absurd (hiff.mp (by simp [hrs])) h0

theorem timerInv_startTimer {t : TimerState} (h : TimerInv t) {now : Int}
    (hn : 0 < now) : TimerInv (startTimer now t) := by
  obtain ⟨hiff, hts, hcnt⟩ := h
  by_cases h0 : t.activeCount = 0
  · have hrs : t.runningSince = none :=
      timerInv_of_not_running ⟨hiff, hts, hcnt⟩ (by omega)
    rw [startTimer_eq_idle h0 hrs]
    refine ⟨by simp; omega, ?_, by simp; omega⟩
    intro T hT
    simp at hT
    omega
  · rw [startTimer_eq_busy h0]
    obtain ⟨T, hrs, hT⟩ := timerInv_of_running ⟨hiff, hts, hcnt⟩ (by omega)
    refine ⟨by simp [hrs]; omega, ?_, by simp; omega⟩
    intro T' hT'
    simp [hrs] at hT'
    omega

theorem timerInv_stopTimer {t : TimerState} (h : TimerInv t) (now : Int) :
    TimerInv (stopTimer now t) := by
  obtain ⟨hiff, hts, hcnt⟩ := h
  by_cases h0 : 0 < t.activeCount
  · obtain ⟨T, hrs, hT⟩ := timerInv_of_running ⟨hiff, hts, hcnt⟩ h0
    by_cases h1 : t.activeCount = 1
    · rw [stopTimer_eq_one h1 hrs (by omega)]
      exact ⟨by simp, by simp, by simp⟩
    · rw [stopTimer_eq_many (by omega)]
      refine ⟨by simp [hrs]; omega, ?_, by simp; omega⟩
      intro T' hT'
      simp [hrs] at hT'
      omega
  · have hrs : t.runningSince = none :=
      timerInv_of_not_running ⟨hiff, hts, hcnt⟩ h0
    rw [stopTimer_eq_zero (by omega) hrs]
    exact ⟨by simp, by simp, by simp⟩

theorem timerInv_pauseTimer {t : TimerState} (h : TimerInv t) (now : Int) :
    TimerInv (pauseTimer now t) := by
  obtain ⟨hiff, hts, hcnt⟩ := h
  by_cases h0 : 0 < t.activeCount
  · obtain ⟨T, hrs, hT⟩ := timerInv_of_running ⟨hiff, hts, hcnt⟩ h0
    have hT0 : T ≠ 0 := by omega
    have heq : pauseTimer now t = ⟨t.accumulated + (now - T), none, 0⟩ := by
      simp [pauseTimer, hrs, tsTruthy, hT0]
    rw [heq]
    exact ⟨by simp, by simp, by simp⟩
  · have hrs : t.runningSince = none :=
      timerInv_of_not_running ⟨hiff, hts, hcnt⟩ h0
    have heq : pauseTimer now t = ⟨t.accumulated, none, 0⟩ := by
      simp [pauseTimer, hrs, tsTruthy]
    rw [heq]
    exact ⟨by simp, by simp, by simp⟩

theorem timersInv_aset {m : List (String × TimerState)} {k : String} {v : TimerState}
    (hm : TimersInv m) (hv : TimerInv v) : TimersInv (aset k v m) := by
  intro kv hkv
  rcases mem_aset hkv with h | h
  · rw [h]; exact hv
  · exact hm kv h

theorem timersInv_aerase {m : List (String × TimerState)} {k : String}
    (hm : TimersInv m) : TimersInv (aerase k m) :=
  fun kv hkv => hm kv (mem_aerase hkv)

theorem timersInv_ensure {m : List (String × TimerState)} (hm : TimersInv m)
    (title : String) : TimersInv (ensureTitleTimer title m) := by
  unfold ensureTitleTimer
  cases alookup title m with
  | some t => exact hm
  | none => exact timersInv_aset hm timerInv_initTimer

theorem timersInv_start {m : List (String × TimerState)} (hm : TimersInv m)
    {now : Int} (hn : 0 < now) (title : String) :
    TimersInv (startTitleIfNeeded now title m) := by
  have h1 := timersInv_ensure hm title
  unfold startTitleIfNeeded
  dsimp only
  split
  · next t hl =>
    exact timersInv_aset h1 (timerInv_startTimer (h1 _ (mem_of_alookup hl)) hn)
  · exact h1

theorem timersInv_stop {m : List (String × TimerState)} (hm : TimersInv m)
    (now : Int) (title : String) : TimersInv (stopTitleIfNeeded now title m) := by
  unfold stopTitleIfNeeded
  split
  · exact hm
  · next t hl =>
    exact timersInv_aset hm (timerInv_stopTimer (hm _ (mem_of_alookup hl)) now)

theorem timersInv_pauseAll {m : List (String × TimerState)} (hm : TimersInv m)
    (now : Int) : TimersInv (pauseAllTitles now m) := by
  intro kv hkv
  unfold pauseAllTitles at hkv
  rcases List.mem_map.mp hkv with ⟨kv0, hkv0, heq⟩
  rw [← heq]
  exact timerInv_pauseTimer (hm kv0 hkv0) now

theorem timersInv_reportTitle {s : EngineState} (hm : TimersInv s.titleTimers)
    {n : Int} (hn : 0 < n) (tid : Int) (rawTitle : Option String) :
    TimersInv (reportTitle n tid rawTitle s).titleTimers := by
  unfold reportTitle
  dsimp only
  split
  · dsimp only
    split
    · exact timersInv_start (timersInv_ensure hm _) hn _
    · exact timersInv_ensure hm _
  · exact hm

theorem timersInv_handleTabChange {s : EngineState} (hm : TimersInv s.titleTimers)
    {n : Int} (hn : 0 < n) (tid : Option Int) :
    TimersInv (handleTabChange n tid s).titleTimers := by
  unfold handleTabChange
  dsimp only
  have hm1 : TimersInv (match s.currentActiveTabId with
      | none => s.titleTimers
      | some prev =>
        match alookup (toString prev) s.tabToTitle with
        | some prevTitle =>
          if strTruthy prevTitle then stopTitleIfNeeded n prevTitle s.titleTimers
          else s.titleTimers
        | none => s.titleTimers) := by
    split
    · exact hm
    · split
      · split
        · exact timersInv_stop hm n _
        · exact hm
      · exact hm
  split
  · exact hm
  · split
    · exact hm1
    · split
      · split
        · exact timersInv_start hm1 hn _
        · exact hm1
      · exact hm1

theorem timersInv_handleTabRemoved {s : EngineState} (hm : TimersInv s.titleTimers)
    (n : Int) (tid : Int) :
    TimersInv (handleTabRemoved n tid s).titleTimers := by
  unfold handleTabRemoved
  dsimp only
  split
  · split
    · split
      · exact timersInv_stop hm n _
      · exact hm
    · exact hm
  · exact hm

theorem timersInv_stepEngine {s : EngineState} (hm : TimersInv s.titleTimers)
    {n : Int} (hn : 0 < n) (e : EngineEv) :
    TimersInv (stepEngine s (n, e)).titleTimers := by
  cases e with
  | report tid rawTitle => exact timersInv_reportTitle hm hn tid rawTitle
  | tabActivated tid => exact timersInv_handleTabChange hm hn tid
  | tabRemoved tid => exact timersInv_handleTabRemoved hm n tid
  | focusLost => exact timersInv_pauseAll hm n
  | startT title => exact timersInv_start hm hn title
  | stopT title => exact timersInv_stop hm n title

theorem timersInv_runEngine {s : EngineState} (hm : TimersInv s.titleTimers)
    {es : List (Int × EngineEv)} (hp : posTimes es) :
    TimersInv (runEngine s es).titleTimers := by
  induction es generalizing s with
  | nil => exact hm
  | cons ne r ih =>
    obtain ⟨n, e⟩ := ne
    have hn : 0 < n := hp (n, e) (by simp)
    have hr : posTimes r := fun q hq => hp q (List.mem_cons_of_mem _ hq)
    exact ih (timersInv_stepEngine hm hn e) hr

/-- C2: from the initial state, along any sequence of engine operations
(identity reports, tab changes, tab removals, focus loss / pause-all,
and raw start/stop calls) executed at positive wall-clock times, every
timer in the map satisfies the invariant: `runningSince` is set iff
`activeCount > 0`. -/
theorem timer_running_iff_active (es : List (Int × EngineEv)) (hp : posTimes es) :
    ∀ title t, alookup title (runEngine initEngine es).titleTimers = some t →
      (t.runningSince.isSome ↔ 0 < t.activeCount) := by
  have base : TimersInv initEngine.titleTimers := by
    intro kv hkv
    simp [initEngine] at hkv
  have hinv := timersInv_runEngine base hp
  intro title t hl
  exact (hinv _ (mem_of_alookup hl)).1

/-- C2 witness: a report on the focused tab followed by a tab switch. -/
theorem timer_running_iff_active_witness :
    posTimes [(1, EngineEv.tabActivated (some 5)), (2, EngineEv.report 5 (some "T")),
              (9, EngineEv.focusLost)]
    ∧ (∀ title t,
        alookup title (runEngine initEngine
          [(1, EngineEv.tabActivated (some 5)), (2, EngineEv.report 5 (some "T")),
           (9, EngineEv.focusLost)]).titleTimers = some t →
        (t.runningSince.isSome ↔ 0 < t.activeCount)) :=
  ⟨by decide, timer_running_iff_active _ (by decide)⟩

/-! ## Tab-focus idempotence (claim C4) -/

theorem handleTabChange_current (now : Int) (tid : Option Int) (s : EngineState) :
    (handleTabChange now tid s).currentActiveTabId = tid := by
  unfold handleTabChange
  by_cases h : s.currentActiveTabId = tid
  · simp [h]
  · simp only [h, if_false]
    cases tid with
    | none => simp
    | some nid =>
      cases halt : alookup (toString nid) s.tabToTitle with
      | none => simp [halt]
      | some title => by_cases ht : strTruthy title <;> simp [halt, ht]

theorem handleTabChange_noop {s : EngineState} {tid : Option Int}
    (h : s.currentActiveTabId = tid) (now : Int) : handleTabChange now tid s = s := by
  unfold handleTabChange
  simp [h]

/-- C4: `onTabFocused` is idempotent — calling `handleTabChange` twice
in a row with the same tab id (at any two wall-clock times) and no
intervening events leaves exactly the state of the first call; in
particular no timer's `activeCount` is incremented twice. -/
theorem tab_focus_idempotent (s : EngineState) (now1 now2 : Int) (tid : Option Int) :
    handleTabChange now2 tid (handleTabChange now1 tid s) = handleTabChange now1 tid s :=
  handleTabChange_noop (handleTabChange_current now1 tid s) now2

/-! ## Identity reports are not deduplicated (claim C10) -/

theorem startTimer_count (now : Int) (t : TimerState) :
    (startTimer now t).activeCount = t.activeCount + 1 := by
  unfold startTimer
  dsimp only
  split <;> rfl

theorem alookup_ensure_self (title : String) (m : List (String × TimerState)) :
    alookup title (ensureTitleTimer title m) = some ((alookup title m).getD initTimer) := by
  unfold ensureTitleTimer
  cases hl : alookup title m with
  | some t => simp [hl]
  | none => simp [hl, alookup_aset_self]

theorem startTitleIfNeeded_lookup (now : Int) (title : String)
    (m : List (String × TimerState)) :
    alookup title (startTitleIfNeeded now title m)
      = some (startTimer now ((alookup title m).getD initTimer)) := by
  unfold startTitleIfNeeded
  dsimp only
  rw [alookup_ensure_self]
  exact alookup_aset_self title _ _

theorem stopTitleIfNeeded_lookup (now : Int) (title : String)
    (m : List (String × TimerState)) :
    alookup title (stopTitleIfNeeded now title m)
      = (alookup title m).map (stopTimer now) := by
  unfold stopTitleIfNeeded
  cases hl : alookup title m with
  | none => simp [hl]
  | some t => simp [hl, alookup_aset_self]

theorem reportTitle_current (now tid : Int) (rawTitle : Option String) (s : EngineState) :
    (reportTitle now tid rawTitle s).currentActiveTabId = s.currentActiveTabId := by
  unfold reportTitle
  dsimp only
  split <;> rfl

theorem reportTitle_active_timers {s : EngineState} {c : Int} {T : String} (a : Int)
    (hc : s.currentActiveTabId = some c) (hc0 : c ≠ 0) (hT : T ≠ "") :
    (reportTitle a c (some T) s).titleTimers
      = startTitleIfNeeded a T (ensureTitleTimer T s.titleTimers) := by
  have ht : strTruthy T = true := by simp [strTruthy, hT]
  have hcond : activeTabMatches s.currentActiveTabId (toString c) = true := by
    rw [hc]
    simp [activeTabMatches, hc0]
  unfold reportTitle
  simp [ht, hcond]

theorem reportTitle_active_lookup {s : EngineState} {c : Int} {T : String} (a : Int)
    (hc : s.currentActiveTabId = some c) (hc0 : c ≠ 0) (hT : T ≠ "") :
    alookup T (reportTitle a c (some T) s).titleTimers
      = some (startTimer a ((alookup T s.titleTimers).getD initTimer)) := by
  rw [reportTitle_active_timers a hc hc0 hT, startTitleIfNeeded_lookup,
      alookup_ensure_self]
  simp

theorem reportN_busy {c : Int} {T : String} {a : Int} (hc0 : c ≠ 0) (hT : T ≠ "") :
    ∀ (k : Nat) (s : EngineState) (m : Int), s.currentActiveTabId = some c → 0 < m →
      alookup T s.titleTimers = some ⟨0, some a, m⟩ →
      alookup T (reportN a c T k s).titleTimers = some ⟨0, some a, m + k⟩
        ∧ (reportN a c T k s).currentActiveTabId = some c := by
  intro k
  induction k with
  | zero =>
    intro s m hc hm hl
    simpa [reportN] using ⟨hl, hc⟩
  | succ k ih =>
    intro s m hc hm hl
    have hl' : alookup T (reportTitle a c (some T) s).titleTimers
        = some ⟨0, some a, m + 1⟩ := by
      rw [reportTitle_active_lookup a hc hc0 hT, hl]
      have hm0 : (⟨0, some a, m⟩ : TimerState).activeCount ≠ 0 := by simp; omega
      rw [Option.getD_some, startTimer_eq_busy hm0]
    have hc' : (reportTitle a c (some T) s).currentActiveTabId = some c := by
      rw [reportTitle_current, hc]
    obtain ⟨h1, h2⟩ := ih (reportTitle a c (some T) s) (m + 1) hc' (by omega) hl'
    constructor
    · rw [show reportN a c T (k + 1) s
          = reportN a c T k (reportTitle a c (some T) s) from rfl, h1]
      congr 2
      push_cast
      ring
    · rw [show reportN a c T (k + 1) s
          = reportN a c T k (reportTitle a c (some T) s) from rfl, h2]

theorem stopsN_running {T : String} {b a : Int} (_ha : a ≠ 0) :
    ∀ (j : Nat) (m : List (String × TimerState)) (acc k : Int),
      alookup T m = some ⟨acc, some a, k⟩ → (j : Int) < k →
      alookup T (stopsN b T j m) = some ⟨acc, some a, k - j⟩ := by
  intro j
  induction j with
  | zero =>
    intro m acc k hl hj
    simpa [stopsN] using hl
  | succ j ih =>
    intro m acc k hl hj
    have hk1 : 1 < k := by
      have : ((j : Int) + 1) < k := by push_cast at hj ⊢; omega
      omega
    have hl' : alookup T (stopTitleIfNeeded b T m) = some ⟨acc, some a, k - 1⟩ := by
      rw [stopTitleIfNeeded_lookup, hl]
      have hact : (⟨acc, some a, k⟩ : TimerState).activeCount = k := rfl
      rw [Option.map_some']
      rw [stopTimer_eq_many (by simpa [hact] using hk1)]
    have := ih (stopTitleIfNeeded b T m) acc (k - 1) hl' (by push_cast at hj ⊢; omega)
    rw [show stopsN b T (j + 1) m = stopsN b T j (stopTitleIfNeeded b T m) from rfl, this]
    congr 2
    push_cast
    ring

theorem stopsN_last {T : String} {b a : Int} (ha : a ≠ 0) :
    ∀ (n : Nat) (m : List (String × TimerState)) (acc : Int),
      alookup T m = some ⟨acc, some a, (n : Int)⟩ → 0 < n →
      alookup T (stopsN b T n m) = some ⟨acc + (b - a), none, 0⟩ := by
  intro n
  induction n with
  | zero => intro m acc hl h0; omega
  | succ k ih =>
    intro m acc hl h0
    by_cases hk : k = 0
    · subst hk
      have hl' : alookup T (stopTitleIfNeeded b T m) = some ⟨acc + (b - a), none, 0⟩ := by
        rw [stopTitleIfNeeded_lookup, hl, Option.map_some']
        rw [stopTimer_eq_one (by simp) (by simp) ha]
      rw [show stopsN b T 1 m = stopsN b T 0 (stopTitleIfNeeded b T m) from rfl]
      simpa [stopsN] using hl'
    · rw [show ((k + 1 : Nat) : Int) = (k : Int) + 1 by push_cast; ring] at hl
      have hl' : alookup T (stopTitleIfNeeded b T m) = some ⟨acc, some a, (k : Int)⟩ := by
        rw [stopTitleIfNeeded_lookup, hl, Option.map_some']
        have hk1 : 1 < ((k : Int) + 1) := by omega
        rw [stopTimer_eq_many (t := ⟨acc, some a, (k : Int) + 1⟩) (by simpa using hk1)]
        simp
      have := ih (stopTitleIfNeeded b T m) acc hl' (by omega)
      rw [show stopsN b T (k + 1) m = stopsN b T k (stopTitleIfNeeded b T m) from rfl]
      exact this

/-- C10: `reportIdentity` is not idempotent for the active tab. When
tab `c` is the active tab (truthy id) and reports a non-empty title
`T`, every further report increments `T`'s `activeCount` by exactly
one; starting from no timer, `n` reports leave
`activeCount = n, runningSince = a`, and it takes exactly `n` stop
calls before the timer transitions to Idle — after `j < n` stops it is
still running with `activeCount = n - j`, and the `n`-th stop banks
`b - a` and clears `runningSince`. -/
theorem report_identity_not_idempotent (s : EngineState) (a b c : Int) (T : String)
    (hc : s.currentActiveTabId = some c) (hc0 : c ≠ 0) (hT : T ≠ "") (ha : 0 < a) :
    (∀ t₀, alookup T s.titleTimers = some t₀ →
        ∃ t₁, alookup T (reportTitle a c (some T) s).titleTimers = some t₁
          ∧ t₁.activeCount = t₀.activeCount + 1)
    ∧ (alookup T s.titleTimers = none →
        ∀ n : Nat, 1 ≤ n →
          alookup T (reportN a c T n s).titleTimers = some ⟨0, some a, (n : Int)⟩
          ∧ (∀ j : Nat, j < n →
              alookup T (stopsN b T j (reportN a c T n s).titleTimers)
                = some ⟨0, some a, (n : Int) - (j : Int)⟩)
          ∧ alookup T (stopsN b T n (reportN a c T n s).titleTimers)
              = some ⟨0 + (b - a), none, 0⟩) := by
  have ha0 : a ≠ 0 := by omega
  constructor
  · intro t₀ hl
    refine ⟨startTimer a t₀, ?_, startTimer_count a t₀⟩
    rw [reportTitle_active_lookup a hc hc0 hT, hl]
    simp
  · intro hfresh n hn
    obtain ⟨k, rfl⟩ : ∃ k, n = k + 1 := ⟨n - 1, by omega⟩
    have hl1 : alookup T (reportTitle a c (some T) s).titleTimers
        = some ⟨0, some a, 1⟩ := by
      rw [reportTitle_active_lookup a hc hc0 hT, hfresh]
      rw [show (none : Option TimerState).getD initTimer = initTimer from rfl]
      rw [startTimer_eq_idle (by simp [initTimer]) (by simp [initTimer])]
      simp [initTimer]
    have hc1 : (reportTitle a c (some T) s).currentActiveTabId = some c := by
      rw [reportTitle_current, hc]
    obtain ⟨hrun, -⟩ :=
      reportN_busy hc0 hT k (reportTitle a c (some T) s) 1 hc1 one_pos hl1
    have hmain : alookup T (reportN a c T (k + 1) s).titleTimers
        = some ⟨0, some a, ((k : Int) + 1)⟩ := by
      rw [show reportN a c T (k + 1) s
          = reportN a c T k (reportTitle a c (some T) s) from rfl, hrun]
      congr 2
      ring
    refine ⟨by push_cast; exact hmain, ?_, ?_⟩
    · intro j hj
      have := stopsN_running (b := b) ha0 j (reportN a c T (k + 1) s).titleTimers 0
        ((k : Int) + 1) hmain (by omega)
      rw [this]
      congr 3
    · exact stopsN_last ha0 (k + 1) _ 0 (by push_cast at hmain ⊢; exact hmain)
        (by omega)

/-- C10 witness: tab 5 is active and reports title "T" three times at
time 2; three stops at time 9 are needed, banking 7. -/
theorem report_identity_not_idempotent_witness :
    ((⟨[], [], some 5⟩ : EngineState).currentActiveTabId = some 5 ∧ (5 : Int) ≠ 0
      ∧ "T" ≠ "" ∧ (0 : Int) < 2)
    ∧ ((∀ t₀, alookup "T" (⟨[], [], some 5⟩ : EngineState).titleTimers = some t₀ →
        ∃ t₁, alookup "T"
            (reportTitle 2 5 (some "T") (⟨[], [], some 5⟩ : EngineState)).titleTimers
            = some t₁
          ∧ t₁.activeCount = t₀.activeCount + 1)
      ∧ (alookup "T" (⟨[], [], some 5⟩ : EngineState).titleTimers = none →
        ∀ n : Nat, 1 ≤ n →
          alookup "T" (reportN 2 5 "T" n (⟨[], [], some 5⟩ : EngineState)).titleTimers
            = some ⟨0, some 2, (n : Int)⟩
          ∧ (∀ j : Nat, j < n →
              alookup "T" (stopsN 9 "T" j
                  (reportN 2 5 "T" n (⟨[], [], some 5⟩ : EngineState)).titleTimers)
                = some ⟨0, some 2, (n : Int) - (j : Int)⟩)
          ∧ alookup "T" (stopsN 9 "T" n
                (reportN 2 5 "T" n (⟨[], [], some 5⟩ : EngineState)).titleTimers)
              = some ⟨0 + (9 - 2), none, 0⟩)) :=
  ⟨⟨rfl, by decide, by decide, by decide⟩,
    report_identity_not_idempotent ⟨[], [], some 5⟩ 2 9 5 "T" rfl (by decide)
      (by decide) (by decide)⟩

/-! ## markCompleted effects (claim C5) -/

theorem tagStats_foldl_notmem (p : StoredProblemData) (b : Bool) {tag : String} :
    ∀ (l : List String) (stats : List (String × TagStat)), tag ∉ l →
      alookup tag (l.foldl
        (fun st tg => aset tg (bumpTagStat p b ((alookup tg st).getD initTagStat)) st)
        stats)
      = alookup tag stats := by
  intro l
  induction l with
  | nil => intro stats _; rfl
  | cons tg rest ih =>
    intro stats hmem
    have h1 : tag ≠ tg := fun h => hmem (by simp [h])
    have h2 : tag ∉ rest := fun h => hmem (by simp [h])
    rw [List.foldl_cons, ih _ h2, alookup_aset_ne h1]

theorem tagStats_foldl_mem (p : StoredProblemData) (b : Bool) {tag : String} :
    ∀ (l : List String) (stats : List (String × TagStat)), l.Nodup → tag ∈ l →
      alookup tag (l.foldl
        (fun st tg => aset tg (bumpTagStat p b ((alookup tg st).getD initTagStat)) st)
        stats)
      = some (bumpTagStat p b ((alookup tag stats).getD initTagStat)) := by
  intro l
  induction l with
  | nil => intro stats _ hmem; simp at hmem
  | cons tg rest ih =>
    intro stats hnd hmem
    by_cases heq : tag = tg
    · subst heq
      have hnotin : tag ∉ rest := (List.nodup_cons.mp hnd).1
      rw [List.foldl_cons, tagStats_foldl_notmem p b rest _ hnotin, alookup_aset_self]
    · have hin : tag ∈ rest := by
        rcases List.mem_cons.mp hmem with h | h
        · exact absurd h heq
        · exact h
      rw [List.foldl_cons, ih _ (List.nodup_cons.mp hnd).2 hin, alookup_aset_ne heq]

theorem attempts_bump (a : Int) : (if a = 0 then 0 else a) + 1 = a + 1 := by
  split <;> omega

/-- C5: `markProblemCompleted` on an existing record with distinct tags
applies the four effects together: the stored record gets
`isCompleted = true`, `completedAt = now`, `attempts + 1`; the revision
catalogue receives exactly that updated record; and every tag of the
record has its stats bumped — `count + 1`, `completed + 1` exactly,
`totalTime + timeSpent`, `lastAccessed` refreshed — while every other
tag's stats are untouched. -/
theorem mark_completed_effects (s : ProblemStorage) (problemId : String) (now : Int)
    (p : StoredProblemData) (hl : alookup problemId s.problems = some p)
    (hnd : p.tags.Nodup) :
    alookup problemId (markProblemCompleted now problemId s).problems
        = some ({ p with isCompleted := true, completedAt := some now,
                         attempts := p.attempts + 1 })
    ∧ alookup problemId (markProblemCompleted now problemId s).revisions
        = some ({ p with isCompleted := true, completedAt := some now,
                         attempts := p.attempts + 1 })
    ∧ (∀ tag ∈ p.tags,
        alookup tag (markProblemCompleted now problemId s).tagStats
          = some ⟨((alookup tag s.tagStats).getD initTagStat).count + 1,
                  ((alookup tag s.tagStats).getD initTagStat).completed + 1,
                  ((alookup tag s.tagStats).getD initTagStat).totalTime + p.timeSpent,
                  p.lastAccessed⟩)
    ∧ (∀ tag, tag ∉ p.tags →
        alookup tag (markProblemCompleted now problemId s).tagStats
          = alookup tag s.tagStats) := by
  have hstep : markProblemCompleted now problemId s
      = { s with
            problems := aset problemId
              ({ p with isCompleted := true, completedAt := some now,
                        attempts := p.attempts + 1 }) s.problems,
            revisions := aset problemId
              ({ p with isCompleted := true, completedAt := some now,
                        attempts := p.attempts + 1 }) s.revisions,
            tagStats := updateTagStats s.tagStats
              ({ p with isCompleted := true, completedAt := some now,
                        attempts := p.attempts + 1 }) true } := by
    unfold markProblemCompleted
    rw [hl]
    dsimp only
    rw [attempts_bump]
  rw [hstep]
  refine ⟨alookup_aset_self _ _ _, alookup_aset_self _ _ _, ?_, ?_⟩
  · intro tag htag
    unfold updateTagStats
    rw [tagStats_foldl_mem _ true _ s.tagStats hnd htag]
    rfl
  · intro tag htag
    unfold updateTagStats
    exact tagStats_foldl_notmem _ true _ s.tagStats htag

/-- C5 witness: the spec scenario — completing a record tagged
`Array` and `Sorting` bumps both tags' `completed` by one and snapshots
the record. -/
theorem mark_completed_effects_witness :
    (alookup "1-a"
        (⟨[("1-a", ⟨⟨"a", 1, "E", "", ["Array", "Sorting"], "", "", false, none, 0⟩,
                     10, 7⟩)],
          none, [], [], [], ⟨50, true, 20⟩⟩ : ProblemStorage).problems
      = some ⟨⟨"a", 1, "E", "", ["Array", "Sorting"], "", "", false, none, 0⟩, 10, 7⟩
      ∧ (⟨⟨"a", 1, "E", "", ["Array", "Sorting"], "", "", false, none, 0⟩,
          (10 : Int), (7 : Int)⟩ : StoredProblemData).tags.Nodup)
    ∧ (∀ tag ∈ (⟨⟨"a", 1, "E", "", ["Array", "Sorting"], "", "", false, none, 0⟩,
          (10 : Int), (7 : Int)⟩ : StoredProblemData).tags,
        alookup tag (markProblemCompleted 77 "1-a"
          (⟨[("1-a", ⟨⟨"a", 1, "E", "", ["Array", "Sorting"], "", "", false, none, 0⟩,
                       10, 7⟩)],
            none, [], [], [], ⟨50, true, 20⟩⟩ : ProblemStorage)).tagStats
          = some ⟨1, 1, 7, 10⟩) := by
  constructor
  · exact ⟨by decide, by decide⟩
  · have h := (mark_completed_effects
      (⟨[("1-a", ⟨⟨"a", 1, "E", "", ["Array", "Sorting"], "", "", false, none, 0⟩,
                   10, 7⟩)],
        none, [], [], [], ⟨50, true, 20⟩⟩ : ProblemStorage) "1-a" 77
      ⟨⟨"a", 1, "E", "", ["Array", "Sorting"], "", "", false, none, 0⟩, 10, 7⟩
      (by decide) (by decide)).2.2.1
    intro tag htag
    have := h tag htag
    rw [this]
    fin_cases htag <;> decide

/-! ## Eviction lemmas (claim C6) -/

theorem mem_keys_of_aerase {α : Type} {k' k : String} {m : List (String × α)}
    (h : k' ∈ (aerase k m).map Prod.fst) : k' ∈ m.map Prod.fst := by
  rcases List.mem_map.mp h with ⟨e, he, rfl⟩
  exact List.mem_map_of_mem _ (mem_aerase he)

theorem keysNodup_aerase {α : Type} {k : String} {m : List (String × α)}
    (h : (m.map Prod.fst).Nodup) : ((aerase k m).map Prod.fst).Nodup := by
  induction m with
  | nil => simp [aerase]
  | cons kv r ih =>
    cases kv with
    | mk k0 v0 =>
      rw [List.map_cons, List.nodup_cons] at h
      by_cases h0 : k0 = k
      · rw [show aerase k ((k0, v0) :: r) = r from by simp [aerase, h0]]
        exact h.2
      · rw [show aerase k ((k0, v0) :: r) = (k0, v0) :: aerase k r from by
            simp [aerase, h0]]
        rw [List.map_cons, List.nodup_cons]
        exact ⟨fun hmem => h.1 (mem_keys_of_aerase hmem), ih h.2⟩

theorem mem_keys_aerase_of_ne {α : Type} {k' k : String} (hne : k' ≠ k)
    {m : List (String × α)} (h : k' ∈ m.map Prod.fst) :
    k' ∈ (aerase k m).map Prod.fst := by
  induction m with
  | nil => simp at h
  | cons kv r ih =>
    cases kv with
    | mk k0 v0 =>
      rw [List.map_cons, List.mem_cons] at h
      by_cases h0 : k0 = k
      · rw [show aerase k ((k0, v0) :: r) = r from by simp [aerase, h0]]
        rcases h with h | h
        · exact absurd (h.trans h0) hne
        · exact h
      · rw [show aerase k ((k0, v0) :: r) = (k0, v0) :: aerase k r from by
            simp [aerase, h0]]
        rw [List.map_cons, List.mem_cons]
        rcases h with h | h
        · exact Or.inl h
        · exact Or.inr (ih h)

theorem length_aerase_mem {α : Type} {k : String} {m : List (String × α)}
    (h : k ∈ m.map Prod.fst) : (aerase k m).length + 1 = m.length := by
  induction m with
  | nil => simp at h
  | cons kv r ih =>
    cases kv with
    | mk k0 v0 =>
      rw [List.map_cons, List.mem_cons] at h
      by_cases h0 : k0 = k
      · rw [show aerase k ((k0, v0) :: r) = r from by simp [aerase, h0]]
        simp
      · rcases h with h | h
        · exact absurd h.symm h0
        · rw [show aerase k ((k0, v0) :: r) = (k0, v0) :: aerase k r from by
              simp [aerase, h0]]
          rw [List.length_cons, List.length_cons, ← ih h]

theorem length_foldl_aerase {α : Type} :
    ∀ (rs : List (String × α)) (m : List (String × α)),
      (m.map Prod.fst).Nodup → (rs.map Prod.fst).Nodup →
      (∀ e ∈ rs, e.1 ∈ m.map Prod.fst) →
      (rs.foldl (fun acc kv => aerase kv.1 acc) m).length + rs.length = m.length := by
  intro rs
  induction rs with
  | nil => intro m _ _ _; simp
  | cons r rest ih =>
    intro m hm hrs hmem
    rw [List.map_cons, List.nodup_cons] at hrs
    have hrmem : r.1 ∈ m.map Prod.fst := hmem r (by simp)
    have hmem' : ∀ e ∈ rest, e.1 ∈ (aerase r.1 m).map Prod.fst := by
      intro e he
      have hne : e.1 ≠ r.1 := by
        intro hcontra
        exact hrs.1 (hcontra ▸ List.mem_map_of_mem _ he)
      exact mem_keys_aerase_of_ne hne (hmem e (List.mem_cons_of_mem _ he))
    have hrec := ih (aerase r.1 m) (keysNodup_aerase hm) hrs.2 hmem'
    have hlen1 := length_aerase_mem hrmem
    rw [List.foldl_cons, List.length_cons]
    omega

/-- C6: saving a fresh problem into a catalogue exactly at the cap
(with pairwise-distinct `lastAccessed` stamps) removes exactly the
single least-recently-accessed entry and leaves the catalogue at the
cap; more generally the eviction pass is a no-op at or below the cap,
reduces an over-cap catalogue to exactly the cap, and no read operation
ever touches the store. -/
theorem eviction_at_cap (s : ProblemStorage) (d : ProblemData) (now : Int)
    (hlen : (s.problems.length : Int) = s.settings.maxStoredProblems)
    (hfresh : alookup (generateProblemId d) s.problems = none)
    (hdist : ((aset (generateProblemId d) (⟨d, now, 0⟩ : StoredProblemData)
        s.problems).map (fun kv => kv.2.lastAccessed)).Nodup) :
    (∃ me, me ∈ aset (generateProblemId d) (⟨d, now, 0⟩ : StoredProblemData) s.problems
      ∧ (∀ e ∈ aset (generateProblemId d) (⟨d, now, 0⟩ : StoredProblemData) s.problems,
          e ≠ me → me.2.lastAccessed < e.2.lastAccessed)
      ∧ saveProblem now d s
          = { s with
                problems := aerase me.1
                  (aset (generateProblemId d) (⟨d, now, 0⟩ : StoredProblemData)
                    s.problems),
                lastUsedProblemId := some (generateProblemId d) }
      ∧ ((saveProblem now d s).problems.length : Int) = s.settings.maxStoredProblems)
    ∧ (∀ s2 : ProblemStorage,
        (s2.problems.length : Int) ≤ s2.settings.maxStoredProblems →
        cleanupOldProblems s2 = s2)
    ∧ (∀ s2 : ProblemStorage, (s2.problems.map Prod.fst).Nodup →
        0 ≤ s2.settings.maxStoredProblems →
        s2.settings.maxStoredProblems < (s2.problems.length : Int) →
        ((cleanupOldProblems s2).problems.length : Int) = s2.settings.maxStoredProblems)
    ∧ (∀ (s2 : ProblemStorage) (i : String),
        getProblem i s2 = (s2, alookup i s2.problems)
        ∧ getAllProblems s2 = (s2, s2.problems)
        ∧ getRevisionProblems s2 = (s2, s2.revisions.map Prod.snd)
        ∧ getTagStats s2 = (s2, s2.tagStats)) := by
  have hnoop : ∀ s2 : ProblemStorage,
      (s2.problems.length : Int) ≤ s2.settings.maxStoredProblems →
      cleanupOldProblems s2 = s2 := by
    intro s2 h
    unfold cleanupOldProblems
    simp [h]
  have hremove : ∀ s2 : ProblemStorage, (s2.problems.map Prod.fst).Nodup →
      0 ≤ s2.settings.maxStoredProblems →
      s2.settings.maxStoredProblems < (s2.problems.length : Int) →
      ((cleanupOldProblems s2).problems.length : Int)
        = s2.settings.maxStoredProblems := by
    intro s2 hk hcap hover
    have hnotle : ¬ ((s2.problems.length : Int) ≤ s2.settings.maxStoredProblems) := by
      omega
    unfold cleanupOldProblems
    dsimp only
    rw [if_neg hnotle]
    have hperm : (List.insertionSort byLastAccessed s2.problems).Perm s2.problems :=
      List.perm_insertionSort _ _
    have hsortedkeys :
        ((List.insertionSort byLastAccessed s2.problems).map Prod.fst).Nodup :=
      ((hperm.map Prod.fst).nodup_iff).mpr hk
    have htakekeys : ∀ q : Nat,
        (((List.insertionSort byLastAccessed s2.problems).take q).map Prod.fst).Nodup :=
      fun q => ((List.take_sublist q _).map Prod.fst).nodup hsortedkeys
    have htakemem : ∀ (q : Nat)
        (e : String × StoredProblemData),
        e ∈ (List.insertionSort byLastAccessed s2.problems).take q →
        e.1 ∈ s2.problems.map Prod.fst := by
      intro q e he
      exact List.mem_map_of_mem _ (hperm.mem_iff.mp (List.mem_of_mem_take he))
    have hlenfold := length_foldl_aerase
      ((List.insertionSort byLastAccessed s2.problems).take
        (((s2.problems.length : Int) - s2.settings.maxStoredProblems).toNat))
      s2.problems hk (htakekeys _) (htakemem _)
    have hlentake :
        ((List.insertionSort byLastAccessed s2.problems).take
          (((s2.problems.length : Int) - s2.settings.maxStoredProblems).toNat)).length
        = ((s2.problems.length : Int) - s2.settings.maxStoredProblems).toNat := by
      rw [List.length_take]
      have hsl : (List.insertionSort byLastAccessed s2.problems).length
          = s2.problems.length := hperm.length_eq
      have : (((s2.problems.length : Int) - s2.settings.maxStoredProblems).toNat)
          ≤ (List.insertionSort byLastAccessed s2.problems).length := by
        rw [hsl]; omega
      omega
    rw [show ∀ (l : List (String × StoredProblemData)) (st : ProblemStorage),
        ({ st with problems := l } : ProblemStorage).problems = l from
        fun _ _ => rfl]
    omega
  refine ⟨?_, hnoop, hremove, fun s2 i => ⟨rfl, rfl, rfl, rfl⟩⟩
  have hlenentries :
      ((aset (generateProblemId d) (⟨d, now, 0⟩ : StoredProblemData)
        s.problems).length : Int) = s.settings.maxStoredProblems + 1 := by
    rw [length_aset_absent hfresh]
    push_cast
    omega
  have hperm : (List.insertionSort byLastAccessed
        (aset (generateProblemId d) (⟨d, now, 0⟩ : StoredProblemData)
          s.problems)).Perm
      (aset (generateProblemId d) (⟨d, now, 0⟩ : StoredProblemData) s.problems) :=
    List.perm_insertionSort _ _
  have hsortlen : (List.insertionSort byLastAccessed
        (aset (generateProblemId d) (⟨d, now, 0⟩ : StoredProblemData)
          s.problems)).length
      = (aset (generateProblemId d) (⟨d, now, 0⟩ : StoredProblemData)
          s.problems).length :=
    hperm.length_eq
  obtain ⟨me, rest, hcons⟩ : ∃ me rest,
      List.insertionSort byLastAccessed
        (aset (generateProblemId d) (⟨d, now, 0⟩ : StoredProblemData) s.problems)
      = me :: rest := by
    cases hs : List.insertionSort byLastAccessed
        (aset (generateProblemId d) (⟨d, now, 0⟩ : StoredProblemData) s.problems) with
    | nil =>
      rw [hs, List.length_nil] at hsortlen
      rw [← hsortlen] at hlenentries
      simp at hlenentries
      omega
    | cons me rest => exact ⟨me, rest, rfl⟩
  have hsorted : List.Sorted byLastAccessed (me :: rest) := by
    rw [← hcons]
    exact List.sorted_insertionSort byLastAccessed _
  have hmemme : me ∈ aset (generateProblemId d)
      (⟨d, now, 0⟩ : StoredProblemData) s.problems :=
    hperm.mem_iff.mp (by rw [hcons]; simp)
  have hminstrict : ∀ e ∈ aset (generateProblemId d)
      (⟨d, now, 0⟩ : StoredProblemData) s.problems,
      e ≠ me → me.2.lastAccessed < e.2.lastAccessed := by
    intro e he hnee
    have hesort : e ∈ me :: rest := by
      rw [← hcons]
      exact hperm.mem_iff.mpr he
    have hle : me.2.lastAccessed ≤ e.2.lastAccessed := by
      rcases List.mem_cons.mp hesort with h | h
      · rw [h]
      · exact List.rel_of_sorted_cons hsorted e h
    have hneq : me.2.lastAccessed ≠ e.2.lastAccessed := by
      intro hcontra
      exact hnee (List.inj_on_of_nodup_map hdist he hmemme hcontra.symm)
    omega
  have hsave : saveProblem now d s
      = { s with
            problems := aerase me.1
              (aset (generateProblemId d) (⟨d, now, 0⟩ : StoredProblemData)
                s.problems),
            lastUsedProblemId := some (generateProblemId d) } := by
    unfold saveProblem
    dsimp only
    rw [hfresh]
    dsimp only
    unfold cleanupOldProblems
    dsimp only
    have hnotle : ¬ (((aset (generateProblemId d)
        (⟨d, now, 0⟩ : StoredProblemData) s.problems).length : Int)
        ≤ s.settings.maxStoredProblems) := by
      omega
    rw [if_neg hnotle]
    have hq1 : (((aset (generateProblemId d)
        (⟨d, now, 0⟩ : StoredProblemData) s.problems).length : Int)
        - s.settings.maxStoredProblems).toNat = 1 := by
      omega
    rw [hq1, hcons]
    rfl
  have hproj : (saveProblem now d s).problems
      = aerase me.1 (aset (generateProblemId d)
          (⟨d, now, 0⟩ : StoredProblemData) s.problems) := by
    rw [hsave]
  have hlenfinal : ((saveProblem now d s).problems.length : Int)
      = s.settings.maxStoredProblems := by
    rw [hproj]
    have hmk : me.1 ∈ (aset (generateProblemId d)
        (⟨d, now, 0⟩ : StoredProblemData) s.problems).map Prod.fst :=
      List.mem_map_of_mem _ hmemme
    have := length_aerase_mem hmk
    omega
  exact ⟨me, hmemme, hminstrict, hsave, hlenfinal⟩


/-- C6 witness: a two-record catalogue at cap 2 receiving a fresh third
record evicts the single oldest record. -/
theorem eviction_at_cap_witness :
    (((exStore.problems.length : Int) = exStore.settings.maxStoredProblems)
      ∧ alookup (generateProblemId exPayloadC) exStore.problems = none
      ∧ ((aset (generateProblemId exPayloadC)
          (⟨exPayloadC, 20, 0⟩ : StoredProblemData) exStore.problems).map
          (fun kv => kv.2.lastAccessed)).Nodup)
    ∧ (∃ me, me ∈ aset (generateProblemId exPayloadC)
          (⟨exPayloadC, 20, 0⟩ : StoredProblemData) exStore.problems
        ∧ (∀ e ∈ aset (generateProblemId exPayloadC)
            (⟨exPayloadC, 20, 0⟩ : StoredProblemData) exStore.problems,
            e ≠ me → me.2.lastAccessed < e.2.lastAccessed)
        ∧ saveProblem 20 exPayloadC exStore
            = { exStore with
                  problems := aerase me.1
                    (aset (generateProblemId exPayloadC)
                      (⟨exPayloadC, 20, 0⟩ : StoredProblemData) exStore.problems),
                  lastUsedProblemId := some (generateProblemId exPayloadC) }
        ∧ ((saveProblem 20 exPayloadC exStore).problems.length : Int)
            = exStore.settings.maxStoredProblems) :=
  ⟨⟨by decide, by decide, by decide⟩,
    (eviction_at_cap exStore exPayloadC 20
      (by decide) (by decide) (by decide)).1⟩

/-! ## saveProblem preserves timeSpent (claim C9) -/

/-- C9 counterexample: the claim quantifies over every store state, but
with the retention cap set to 0 the eviction pass that `saveProblem`
runs after the merge removes the just-updated record itself, so nothing
of it (its preserved `timeSpent` included) remains in the catalogue. -/
theorem save_preserves_timeSpent_cex :
    alookup (generateProblemId exPayloadA) exStoreCap0.problems = some exProblemTS
    ∧ exProblemTS.timeSpent = 42
    ∧ alookup (generateProblemId exPayloadA)
        (saveProblem 99 exPayloadA exStoreCap0).problems = none := by decide

/-- C9 amended: for every store whose catalogue is within the retention
cap and every payload whose derived id already exists, `saveProblem`
keeps the record under that id with its `timeSpent` preserved (never
reset), all descriptive fields replaced by the payload,
`lastAccessed = now`, and sets `lastUsedProblemId` to that id. -/
theorem save_preserves_timeSpent (s : ProblemStorage) (d : ProblemData) (now : Int)
    (hcap : (s.problems.length : Int) ≤ s.settings.maxStoredProblems)
    (p0 : StoredProblemData)
    (hl : alookup (generateProblemId d) s.problems = some p0) :
    alookup (generateProblemId d) (saveProblem now d s).problems
        = some (⟨d, now, p0.timeSpent⟩ : StoredProblemData)
    ∧ (saveProblem now d s).lastUsedProblemId = some (generateProblemId d) := by
  have hs1 : saveProblem now d s
      = cleanupOldProblems
          { s with
              problems := aset (generateProblemId d)
                (⟨d, now, p0.timeSpent⟩ : StoredProblemData) s.problems,
              lastUsedProblemId := some (generateProblemId d) } := by
    unfold saveProblem
    dsimp only
    rw [hl]
  have hlen : (aset (generateProblemId d)
      (⟨d, now, p0.timeSpent⟩ : StoredProblemData) s.problems).length
      = s.problems.length := length_aset_present hl _
  have hno : cleanupOldProblems
      { s with
          problems := aset (generateProblemId d)
            (⟨d, now, p0.timeSpent⟩ : StoredProblemData) s.problems,
          lastUsedProblemId := some (generateProblemId d) }
      = { s with
            problems := aset (generateProblemId d)
              (⟨d, now, p0.timeSpent⟩ : StoredProblemData) s.problems,
            lastUsedProblemId := some (generateProblemId d) } := by
    unfold cleanupOldProblems
    dsimp only
    rw [if_pos]
    rw [hlen]
    exact hcap
  rw [hs1, hno]
  exact ⟨alookup_aset_self _ _ _, rfl⟩

/-- C9 witness: re-saving the `1-a` record in a store within the cap
preserves its 42 ms of banked time while restamping the rest. -/
theorem save_preserves_timeSpent_witness :
    ((exStoreTS.problems.length : Int) ≤ exStoreTS.settings.maxStoredProblems
      ∧ alookup (generateProblemId exPayloadA) exStoreTS.problems = some exProblemTS)
    ∧ (alookup (generateProblemId exPayloadA)
          (saveProblem 99 exPayloadA exStoreTS).problems
        = some (⟨exPayloadA, 99, exProblemTS.timeSpent⟩ : StoredProblemData)
      ∧ (saveProblem 99 exPayloadA exStoreTS).lastUsedProblemId
        = some (generateProblemId exPayloadA)) :=
  ⟨⟨by decide, by decide⟩,
    save_preserves_timeSpent exStoreTS exPayloadA 99 (by decide) exProblemTS
      (by decide)⟩

/-! ## Import validation (claim C8) -/

/-- C8: whenever the parsed import document lacks a `problems` field,
`importData` signals failure (`false`) and the previously persisted
document is left completely unchanged — the import is never partially
applied. -/
theorem import_missing_problems_fails (prior j : Json)
    (h : problemsField j = none) : importData prior j = (false, prior) := by
  have hv : validImport j = false := by
    unfold validImport
    rw [h]
  unfold importData
  rw [hv]
  rfl

/-- C8 witness: the spec scenario — importing a document with only a
`foo` field fails and keeps the prior document. -/
theorem import_missing_problems_fails_witness :
    problemsField (Json.obj [("foo", Json.num 1)]) = none
    ∧ importData Json.null (Json.obj [("foo", Json.num 1)]) = (false, Json.null) :=
  ⟨rfl, import_missing_problems_fails Json.null _ rfl⟩

/-! ## Export/import round trip (claim C7) -/

theorem asInt_intCast (n : Int) : asInt (Json.num (n : Rat)) = some n := by
  simp [asInt, Rat.den_intCast, Rat.num_intCast]

theorem decodeList_map {α : Type} {dec : Json → Option α} (enc : α → Json)
    (h : ∀ v, dec (enc v) = some v) :
    ∀ l : List α, decodeList dec (l.map enc) = some l := by
  intro l
  induction l with
  | nil => rfl
  | cons a r ih => simp [decodeList, h, ih]

theorem decodePairs_map {α : Type} {dec : Json → Option α} (enc : α → Json)
    (h : ∀ v, dec (enc v) = some v) :
    ∀ l : List (String × α),
      decodePairs dec (l.map (fun kv => (kv.1, enc kv.2))) = some l := by
  intro l
  induction l with
  | nil => rfl
  | cons kv r ih =>
    cases kv with
    | mk k v => simp [decodePairs, h, ih]

theorem asStrList_map (l : List String) :
    asStrList (Json.arr (l.map Json.str)) = some l := by
  show decodeList asStr (l.map Json.str) = some l
  exact decodeList_map Json.str (fun v => rfl) l

set_option maxHeartbeats 1600000 in
theorem decodeProblem_encode (p : StoredProblemData) :
    decodeProblem (encodeProblem p) = some p := by
  obtain ⟨⟨t, n0, df, pt, tg, ds, lk, ic, ca, a0⟩, la, ts⟩ := p
  cases ca <;>
    simp [encodeProblem, decodeProblem, encodeOptField, alookup, asObj, asStr,
          asBool, asStrList_map, asInt_intCast]

set_option maxHeartbeats 1600000 in
theorem decodeSimilar_encode (q : SimilarQuestion) :
    decodeSimilar (encodeSimilar q) = some q := by
  obtain ⟨t, n0, df, tg, lk, ar⟩ := q
  cases ar <;>
    simp [encodeSimilar, decodeSimilar, encodeOptField, alookup, asObj, asStr,
          asRat, asStrList_map, asInt_intCast]

theorem decodeTagStat_encode (t : TagStat) :
    decodeTagStat (encodeTagStat t) = some t := by
  obtain ⟨c0, c1, tt, la⟩ := t
  simp [encodeTagStat, decodeTagStat, alookup, asObj, asInt_intCast]

theorem decodeSettings_encode (st : StoreSettings) :
    decodeSettings (encodeSettings st) = some st := by
  obtain ⟨mp, asv, mr⟩ := st
  simp [encodeSettings, decodeSettings, alookup, asObj, asBool, asInt_intCast]

theorem decodeEntries_encode {α : Type} {dec : Json → Option α} (enc : α → Json)
    (h : ∀ v, dec (enc v) = some v) (l : List (String × α)) :
    decodeEntries dec (Json.obj (l.map (fun kv => (kv.1, enc kv.2)))) = some l := by
  show decodePairs dec (l.map (fun kv => (kv.1, enc kv.2))) = some l
  exact decodePairs_map enc h l

theorem decodeSimilarList_encode (l : List SimilarQuestion) :
    (asArr (Json.arr (l.map encodeSimilar))).bind (decodeList decodeSimilar)
      = some l := by
  show decodeList decodeSimilar (l.map encodeSimilar) = some l
  exact decodeList_map encodeSimilar decodeSimilar_encode l

theorem decodeRecs_encode (l : List (String × List SimilarQuestion)) :
    decodeEntries (fun v => (asArr v).bind (decodeList decodeSimilar))
      (Json.obj (l.map (fun kv => (kv.1, Json.arr (kv.2.map encodeSimilar)))))
      = some l := by
  show decodePairs (fun v => (asArr v).bind (decodeList decodeSimilar))
      (l.map (fun kv => (kv.1, Json.arr (kv.2.map encodeSimilar)))) = some l
  induction l with
  | nil => rfl
  | cons kv r ih =>
    cases kv with
    | mk k v => simp [decodePairs, decodeSimilarList_encode, ih]

set_option maxHeartbeats 1600000 in
/-- C7: importing the export of any store document succeeds, stores the
exported document verbatim, and that exported document reads back as
exactly the original store — the same problems, recommendations,
revisions and tagStats mappings (and the rest of the document). -/
theorem export_import_round_trip (prior : Json) (s : ProblemStorage) :
    importData prior (exportData s) = (true, exportData s)
    ∧ decodeStorage (exportData s) = some s := by
  constructor
  · have hv : validImport (exportData s) = true := by
      unfold validImport problemsField exportData
      simp [alookup, jsonTruthy, jsonTypeofObject]
    unfold importData
    rw [hv]
    rfl
  · obtain ⟨pr, lu, rc, rv, tg, st⟩ := s
    cases lu <;>
      simp [exportData, decodeStorage, alookup, asObj,
            decodeEntries_encode encodeProblem decodeProblem_encode,
            decodeRecs_encode,
            decodeEntries_encode encodeTagStat decodeTagStat_encode,
            decodeSettings_encode]

end LC
